import Mathlib

/-!
Verification of the heads-up NLHE poker solver core.

Shallow embedding of the Go packages `pkg/cards`, `pkg/notation`,
`pkg/tree`, `pkg/equity` and `pkg/solver`.  Conventions:

* `float64` quantities (pots, stacks, probabilities, regrets) are
  modelled as exact rationals `ℚ`; the algorithms only add, subtract,
  multiply and divide, and none of the verified statements depends on
  rounding behaviour.
* Go `panic` and Go `error` returns are both modelled as `Option`
  (`none` = panic / error); a function that can only panic through a
  callee threads the callee's `Option`.
* Go ranks are `Two = 0 .. Ace = 12` and suits `Spades = 0 .. Clubs = 3`,
  exactly as the `iota` constants in `pkg/cards`.
-/

namespace PokerSolver

/-- Card rank, `Two = 0` … `Ace = 12` (Go `cards.Rank`). -/
abbrev Rank := Nat

/-- Card suit, `Spades = 0` … `Clubs = 3` (Go `cards.Suit`). -/
abbrev Suit := Nat

/-- A playing card (Go `cards.Card`). -/
structure Card where
  rank : Rank
  suit : Suit
deriving DecidableEq, Repr

/-- Hand category, `HighCard = 0` … `StraightFlush = 8` (Go `cards.HandRank`). -/
abbrev HandRank := Nat

/-- Value of a 5-card hand: category plus the 5-entry tiebreaker vector
(Go `cards.HandValue`; the Go `[5]Rank` array is a 5-element list here). -/
structure HandValue where
  rank : HandRank
  values : List Rank
deriving DecidableEq, Repr

/-- Lexicographic comparison of the tiebreaker vectors
(the index loop inside Go `HandValue.Compare`). -/
def lexCompare : List Rank → List Rank → Int
  | [], [] => 0
  | [], _ :: _ => 0
  | _ :: _, [] => 0
  | a :: as, b :: bs =>
    if a ≠ b then (if a < b then -1 else 1) else lexCompare as bs

/-- Go `HandValue.Compare`: category first, then tiebreakers. -/
def HandValue.compare (h other : HandValue) : Int :=
  if h.rank ≠ other.rank then
    (if h.rank < other.rank then -1 else 1)
  else
    lexCompare h.values other.values

/-- Number of cards of rank `r` (the `rankCounts` tally in Go
`evaluate5Cards`, read at index `r`). -/
def rankCount (cs : List Card) (r : Rank) : Nat :=
  cs.countP (fun c => decide (c.rank = r))

/-- Number of cards of suit `s` (the `suitCounts` tally). -/
def suitCount (cs : List Card) (s : Suit) : Nat :=
  cs.countP (fun c => decide (c.suit = s))

/-- Go flush test: some suit appears five times. -/
def isFlushOf (cs : List Card) : Bool :=
  (List.range 4).any (fun s => suitCount cs s == 5)

/-- One five-card straight window: all of `high, high-1, …, high-4`
are present in the counts. -/
def straightWindowAt (counts : Rank → Nat) (high : Rank) : Bool :=
  (List.range 5).all (fun i => counts (high - i) != 0)

/-- The descending list of window high cards Go's loop tries:
Ace (12) down to Six (4). -/
def straightHighs : List Rank := [12, 11, 10, 9, 8, 7, 6, 5, 4]

/-- Go `checkStraight`: try the windows from Ace-high down to Six-high,
first match wins; otherwise the explicit wheel A-2-3-4-5 with high
card Five (= 3). -/
def checkStraight (counts : Rank → Nat) : Bool × Rank :=
  match straightHighs.find? (fun h => straightWindowAt counts h) with
  | some h => (true, h)
  | none =>
    if counts 12 != 0 && counts 0 != 0 && counts 1 != 0 &&
        counts 2 != 0 && counts 3 != 0 then
      (true, 3)
    else
      (false, 0)

/-- A rank group (Go `rankGroup`). -/
structure RankGroup where
  rank : Rank
  count : Nat
deriving DecidableEq, Repr

/-- The ≤ ordering of Go `getRankGroups`' `sort.Slice` comparator:
count descending, then rank descending. -/
def groupLE (g1 g2 : RankGroup) : Bool :=
  if g1.count ≠ g2.count then g1.count > g2.count else g1.rank ≥ g2.rank

/-- Insert into a `groupLE`-sorted list. -/
def insertGroup (g : RankGroup) : List RankGroup → List RankGroup
  | [] => [g]
  | h :: t => if groupLE g h then g :: h :: t else h :: insertGroup g t

/-- Go `getRankGroups`: collect the present ranks from Ace down to Two,
then sort by count descending, rank descending.  The Go
`sort.Slice` comparator is a strict total order on the (distinct-rank)
groups, so its sorted result is unique; the insertion sort here
computes that same ordering. -/
def getRankGroups (counts : Rank → Nat) : List RankGroup :=
  let collected := ((List.range 13).map (fun k => 12 - k)).filterMap
    (fun r => if counts r > 0 then some ⟨r, counts r⟩ else none)
  collected.foldr insertGroup []

/-- `groups[i]` access; with five cards Go's indices are always in
bounds, so the default is never taken. -/
def grp (groups : List RankGroup) (i : Nat) : RankGroup :=
  groups.getD i ⟨0, 0⟩

/-- Body of Go `evaluate5Cards` after the two tallies: category
dispatch from the flush flag and the rank counts. -/
def evaluate5Core (counts : Rank → Nat) (isFlush : Bool) : HandValue :=
  let str := checkStraight counts
  if isFlush && str.1 then
    ⟨8, [str.2, 0, 0, 0, 0]⟩
  else
    let groups := getRankGroups counts
    if (grp groups 0).count = 4 then
      ⟨7, [(grp groups 0).rank, (grp groups 1).rank, 0, 0, 0]⟩
    else if (grp groups 0).count = 3 ∧ (grp groups 1).count = 2 then
      ⟨6, [(grp groups 0).rank, (grp groups 1).rank, 0, 0, 0]⟩
    else if isFlush then
      let ranks := ((List.range 13).map (fun k => 12 - k)).filter
        (fun r => counts r > 0)
      ⟨5, [grk ranks 0, grk ranks 1, grk ranks 2, grk ranks 3, grk ranks 4]⟩
    else if str.1 then
      ⟨4, [str.2, 0, 0, 0, 0]⟩
    else if (grp groups 0).count = 3 then
      ⟨3, [(grp groups 0).rank, (grp groups 1).rank, (grp groups 2).rank, 0, 0]⟩
    else if (grp groups 0).count = 2 ∧ (grp groups 1).count = 2 then
      ⟨2, [(grp groups 0).rank, (grp groups 1).rank, (grp groups 2).rank, 0, 0]⟩
    else if (grp groups 0).count = 2 then
      ⟨1, [(grp groups 0).rank, (grp groups 1).rank, (grp groups 2).rank,
           (grp groups 3).rank, 0]⟩
    else
      ⟨0, [(grp groups 0).rank, (grp groups 1).rank, (grp groups 2).rank,
           (grp groups 3).rank, (grp groups 4).rank]⟩
where
  /-- `ranks[i]` access for the flush branch. -/
  grk (ranks : List Rank) (i : Nat) : Rank := ranks.getD i 0

/-- Go `evaluate5Cards`: tally, then dispatch. -/
def evaluate5Cards (cs : List Card) : HandValue :=
  evaluate5Core (rankCount cs) (isFlushOf cs)

/-- The 21 index quintuples `i<j<k<l<m` over 7 positions, in the order
of Go's nested loops in `Evaluate`. -/
def choose5of7 : List (List Nat) :=
  (List.range 7).flatMap (fun i =>
    (List.range 7).flatMap (fun j =>
      (List.range 7).flatMap (fun k =>
        (List.range 7).flatMap (fun l =>
          (List.range 7).filterMap (fun m =>
            if i < j ∧ j < k ∧ k < l ∧ l < m then
              some [i, j, k, l, m]
            else none)))))

/-- Go `Evaluate`: panics unless exactly 7 cards, else takes the best
5-card value over the 21 subsets, scanning in loop order and replacing
the running best on strict improvement. -/
def Evaluate (cs : List Card) : Option HandValue :=
  if cs.length = 7 then
    some (choose5of7.foldl
      (fun best idxs =>
        let value := evaluate5Cards (idxs.map (fun i => cs.getD i ⟨0, 0⟩))
        if value.compare best > 0 then value else best)
      ⟨0, [0, 0, 0, 0, 0]⟩)
  else
    none

/-! ## `pkg/notation`: actions, combos, range expansion -/

/-- Go `notation.ActionType` (`Check = 0`, `Call`, `Bet`, `Raise`, `Fold`). -/
inductive ActionType where
  | check
  | call
  | bet
  | raise
  | fold
deriving DecidableEq, Repr

/-- Go `notation.Action`: a type plus the amount in big blinds
(0 for check/call/fold). -/
structure Act where
  type : ActionType
  amount : ℚ
deriving DecidableEq, Repr

/-- Round `q ≥ 0` to one decimal with ties-to-even and print it, the
behaviour of Go's `fmt.Sprintf("%.1f", q)` for the non-negative
amounts that occur. -/
def formatFixed1 (q : ℚ) : String :=
  let t := q * 10
  let fl := ⌊t⌋
  let r := t - fl
  let n : Int :=
    if r > 1 / 2 then fl + 1
    else if r < 1 / 2 then fl
    else if fl % 2 = 0 then fl else fl + 1
  toString (n.toNat / 10) ++ "." ++ toString (n.toNat % 10)

/-- Go `Action.String`: `x`, `c`, `f`, `b<amount>`, `r<amount>` with one
decimal. -/
def Act.render (a : Act) : String :=
  match a.type with
  | .check => "x"
  | .call => "c"
  | .bet => "b" ++ formatFixed1 a.amount
  | .raise => "r" ++ formatFixed1 a.amount
  | .fold => "f"

/-- Go `notation.Combo`: a specific two-card holding. -/
structure Combo where
  card1 : Card
  card2 : Card
deriving DecidableEq, Repr

/-- Go `Rank.String`. -/
def rankString (r : Rank) : String :=
  ["2", "3", "4", "5", "6", "7", "8", "9", "T", "J", "Q", "K", "A"].getD r "?"

/-- Go `Suit.String`. -/
def suitString (s : Suit) : String :=
  ["s", "h", "d", "c"].getD s "?"

/-- Go `Card.String`. -/
def Card.render (c : Card) : String :=
  rankString c.rank ++ suitString c.suit

/-- Go `notation.parseRankChar`; `none` models the returned error. -/
def parseRankChar (b : Char) : Option Rank :=
  match b with
  | 'A' => some 12 | 'a' => some 12
  | 'K' => some 11 | 'k' => some 11
  | 'Q' => some 10 | 'q' => some 10
  | 'J' => some 9  | 'j' => some 9
  | 'T' => some 8  | 't' => some 8
  | '9' => some 7
  | '8' => some 6
  | '7' => some 5
  | '6' => some 4
  | '5' => some 3
  | '4' => some 2
  | '3' => some 1
  | '2' => some 0
  | _ => none

/-- The four suits in the order Go's `generateCombos` iterates. -/
def allSuits : List Suit := [0, 1, 2, 3]

/-- Go `notation.generateCombos`: pair → 6 combos, suited → 4,
offsuit → 12. -/
def generateCombos (rank1 rank2 : Rank) (suited : Bool) : List Combo :=
  if rank1 = rank2 then
    (List.range 4).flatMap (fun i =>
      (List.range 4).filterMap (fun j =>
        if i < j then some ⟨⟨rank1, i⟩, ⟨rank2, j⟩⟩ else none))
  else if suited then
    allSuits.map (fun s => ⟨⟨rank1, s⟩, ⟨rank2, s⟩⟩)
  else
    allSuits.flatMap (fun s1 =>
      allSuits.filterMap (fun s2 =>
        if s1 ≠ s2 then some ⟨⟨rank1, s1⟩, ⟨rank2, s2⟩⟩ else none))

/-- Go `strings.TrimSpace`, implemented over the character list so
that it evaluates in the kernel. -/
def goTrim (s : String) : String :=
  ⟨((s.data.dropWhile Char.isWhitespace).reverse.dropWhile
    Char.isWhitespace).reverse⟩

/-- Go `strings.Split` with a one-character separator, on characters. -/
def goSplitChars (sep : Char) : List Char → List (List Char)
  | [] => [[]]
  | c :: rest =>
    if c = sep then [] :: goSplitChars sep rest
    else
      match goSplitChars sep rest with
      | [] => [[c]]
      | g :: gs => (c :: g) :: gs

/-- Go `strings.Split` with a one-character separator. -/
def goSplit (sep : Char) (s : String) : List String :=
  (goSplitChars sep s.data).map (fun cs => ⟨cs⟩)

/-- Go `strings.Contains` with a one-character pattern. -/
def goContains (s : String) (c : Char) : Bool :=
  s.data.contains c

/-- Go `notation.parseSingleHand` (`"AA"`, `"AKs"`, `"AKo"`); note that
a pair with an `s`/`o` suffix is accepted here, the suffix only feeding
the (ignored-for-pairs) `suited` flag. -/
def parseSingleHand (hand : String) : Option (List Combo) :=
  let hand := goTrim hand
  let chars := hand.toList
  if hand.length < 2 ∨ hand.length > 3 then none
  else
    match parseRankChar (chars.getD 0 ' '), parseRankChar (chars.getD 1 ' ') with
    | some rank1, some rank2 =>
      if hand.length = 3 then
        match chars.getD 2 ' ' with
        | 's' => some (generateCombos rank1 rank2 true)
        | 'S' => some (generateCombos rank1 rank2 true)
        | 'o' => some (generateCombos rank1 rank2 false)
        | 'O' => some (generateCombos rank1 rank2 false)
        | _ => none
      else if rank1 ≠ rank2 then none
      else some (generateCombos rank1 rank2 false)
    | _, _ => none

/-- Go `notation.parseHandComponents`: like `parseSingleHand` but used
for dashed-range endpoints, and here a pair with an `s`/`o` suffix IS
rejected. -/
def parseHandComponents (hand : String) : Option (Rank × Rank × Bool) :=
  let hand := goTrim hand
  let chars := hand.toList
  if hand.length < 2 ∨ hand.length > 3 then none
  else
    match parseRankChar (chars.getD 0 ' '), parseRankChar (chars.getD 1 ' ') with
    | some rank1, some rank2 =>
      if hand.length = 3 then
        if rank1 = rank2 then none
        else
          match chars.getD 2 ' ' with
          | 's' => some (rank1, rank2, true)
          | 'S' => some (rank1, rank2, true)
          | 'o' => some (rank1, rank2, false)
          | 'O' => some (rank1, rank2, false)
          | _ => none
      else if rank1 ≠ rank2 then none
      else some (rank1, rank2, false)
    | _, _ => none

/-- Descending rank interval `hi, hi-1, …, lo` (the Go `for r := hi;
r >= lo; r--` loops in `parseRangeWithDash`; empty when `hi < lo`). -/
def ranksDownFrom (hi lo : Rank) : List Rank :=
  (List.range (hi + 1 - lo)).map (fun k => hi - k)

/-- Go `notation.parseRangeWithDash` (`"KK-JJ"`, `"AKs-ATs"`). -/
def parseRangeWithDash (rangeStr : String) : Option (List Combo) :=
  match goSplit '-' rangeStr with
  | [start, stop] =>
    match parseHandComponents (goTrim start), parseHandComponents (goTrim stop) with
    | some (sr1, sr2, sSuited), some (er1, er2, eSuited) =>
      if sSuited ≠ eSuited then none
      else if sr1 = sr2 ∧ er1 = er2 then
        some ((ranksDownFrom sr1 er1).flatMap
          (fun r => generateCombos r r sSuited))
      else if sr1 ≠ er1 then none
      else
        some ((ranksDownFrom sr2 er2).flatMap
          (fun r2 => generateCombos sr1 r2 sSuited))
    | _, _ => none
  | _ => none

/-- Go `notation.ParseRange`: comma-separated terms, each a single hand
or a dashed range; empty parts are skipped; the empty expression is an
error. -/
def ParseRange (rangeStr : String) : Option (List Combo) :=
  let rangeStr := goTrim rangeStr
  if rangeStr = "" then none
  else
    let parts := goSplit ',' rangeStr
    (parts.mapM (fun part =>
      let part := goTrim part
      if part = "" then some []
      else if goContains part '-' then parseRangeWithDash part
      else parseSingleHand part)).map List.flatten

/-! ## `pkg/tree`: action abstraction and game-tree construction -/

/-- Go `tree.ActionConfig`. -/
structure ActionConfig where
  betSizes : List ℚ
  allowCheck : Bool
  allowCall : Bool
  allowFold : Bool
deriving Repr

/-- Go `tree.DefaultRiverConfig`. -/
def DefaultRiverConfig : ActionConfig :=
  ⟨[1 / 2, 3 / 4, 3 / 2], true, true, true⟩

/-- Go `tree.GetLastAction`. -/
def GetLastAction (history : List Act) : Option Act :=
  history.getLast?

/-- Is this action a bet or raise (the test Go repeats inline)? -/
def Act.isBetOrRaise (a : Act) : Bool :=
  match a.type with
  | .bet => true
  | .raise => true
  | _ => false

/-- Go `tree.GenerateActions`: facing a bet/raise the legal set is
{Fold, Call}; otherwise {Check} plus the configured pot-fraction bets
(capped at the stack, dropped below 0.01 bb) plus an appended all-in
when not already present. -/
def GenerateActions (pot stack : ℚ) (lastAction : Option Act)
    (config : ActionConfig) : List Act :=
  match lastAction with
  | some la =>
    if la.isBetOrRaise then
      (if config.allowFold then [⟨.fold, 0⟩] else []) ++
      (if config.allowCall then [⟨.call, 0⟩] else [])
    else
      openActions
  | none => openActions
where
  openActions : List Act :=
    let base :=
      (if config.allowCheck then [(⟨.check, 0⟩ : Act)] else []) ++
      config.betSizes.filterMap (fun sizeFraction =>
        let betAmount := pot * sizeFraction
        let betAmount := if betAmount ≥ stack then stack else betAmount
        if betAmount < 1 / 100 then none else some (⟨.bet, betAmount⟩ : Act))
    let hasAllIn := base.any (fun a =>
      a.isBetOrRaise && decide (a.amount ≥ stack - 1 / 100))
    if stack > 1 / 100 ∧ config.betSizes ≠ [] ∧ ¬hasAllIn then
      base ++ [⟨.bet, stack⟩]
    else
      base

mutual

/-- The game tree (Go `tree.TreeNode`).  The Go struct is a single
record with flags; its four constructors `NewTerminalNode`,
`NewRolloutNode`, `NewDecisionNode` and `NewChanceNode` produce the
variants embedded here.  A rollout node is a terminal with
`needsRollout = true` carrying the two player combos. -/
inductive TreeNode where
  | terminal (pot : ℚ) (payoff : ℚ × ℚ) (needsRollout : Bool)
      (combos : Combo × Combo) (board : List Card) (stks : ℚ × ℚ)
  | decision (infoSet : String) (player : Nat) (pot : ℚ)
      (actions : List Act) (children : Children)
      (board : List Card) (stks : ℚ × ℚ)
  | chance (pot : ℚ) (children : Children) (probs : List (String × ℚ))
      (board : List Card) (stks : ℚ × ℚ)

/-- The `Children` map of a node, keyed by action string; kept as an
association list in insertion order. -/
inductive Children where
  | nil
  | cons (key : String) (child : TreeNode) (rest : Children)

end

/-- The zero `notation.Combo` Go stores on plain terminal nodes. -/
def emptyCombo : Combo := ⟨⟨0, 0⟩, ⟨0, 0⟩⟩

/-- Go map lookup `node.Children[key]`. -/
def Children.find? : Children → String → Option TreeNode
  | .nil, _ => none
  | .cons k v rest, key => if k = key then some v else rest.find? key

/-- Go map insertion `node.Children[key] = child` (replace or append). -/
def Children.set : Children → String → TreeNode → Children
  | .nil, key, child => .cons key child .nil
  | .cons k v rest, key, child =>
    if k = key then .cons k child rest else .cons k v (rest.set key child)

/-- Keys in insertion order. -/
def Children.keys : Children → List String
  | .nil => []
  | .cons k _ rest => k :: rest.keys

/-- Go `tree.ActionKey`. -/
def ActionKey (a : Act) : String := a.render

/-- Go `tree.GetInfoSet`: `board|history|>player|holeCards`. -/
def GetInfoSet (board : List Card) (history : List Act)
    (actingPlayer : String) (holeCards : List Card) : String :=
  String.intercalate "|"
    [String.join (board.map Card.render),
     String.join (history.map Act.render),
     ">" ++ actingPlayer,
     String.join (holeCards.map Card.render)]

/-- Go `Builder.isShowdown`: two consecutive checks, or a bet/raise
followed by a call. -/
def isShowdown (history : List Act) : Bool :=
  match history.reverse with
  | last :: secondLast :: _ =>
    match last.type, secondLast.type with
    | .check, .check => true
    | .call, .bet => true
    | .call, .raise => true
    | _, _ => false
  | _ => false

/-- Go `Builder.calculateShowdownPayoffs`: evaluate both 7-card hands;
winner takes the pot, ties split it.  `none` models the `Evaluate`
panic on a hand that is not exactly 7 cards. -/
def calculateShowdownPayoffs (board : List Card) (combos : Combo × Combo)
    (pot : ℚ) : Option (ℚ × ℚ) :=
  let hand0 := [combos.1.card1, combos.1.card2] ++ board
  let hand1 := [combos.2.card1, combos.2.card2] ++ board
  match Evaluate hand0, Evaluate hand1 with
  | some rank0, some rank1 =>
    let cmp := rank0.compare rank1
    if cmp > 0 then some (pot, 0)
    else if cmp < 0 then some (0, pot)
    else some (pot / 2, pot / 2)
  | _, _ => none

/-- Go `Builder.getCallAmount`: the most recent bet/raise amount,
capped at the remaining stack; 0 when no bet is outstanding. -/
def getCallAmount (history : List Act) (stack : ℚ) : ℚ :=
  match history.reverse.find? Act.isBetOrRaise with
  | some a => if a.amount > stack then stack else a.amount
  | none => 0

/-- Read one of the two stacks by player index (Go `stacks[toAct]`). -/
def stackOf (stks : ℚ × ℚ) (i : Nat) : ℚ :=
  if i = 0 then stks.1 else stks.2

/-- Subtract an amount from one of the two stacks. -/
def stackSub (stks : ℚ × ℚ) (i : Nat) (amt : ℚ) : ℚ × ℚ :=
  if i = 0 then (stks.1 - amt, stks.2) else (stks.1, stks.2 - amt)

/-- The per-action state update inside Go `buildNode`'s loop: new
history, pot, stacks and next player to act. -/
def applyAction (history : List Act) (pot : ℚ) (stks : ℚ × ℚ)
    (toAct : Nat) (action : Act) : List Act × ℚ × (ℚ × ℚ) × Nat :=
  let newHistory := history ++ [action]
  match action.type with
  | .bet =>
    (newHistory, pot + action.amount, stackSub stks toAct action.amount, 1 - toAct)
  | .raise =>
    (newHistory, pot + action.amount, stackSub stks toAct action.amount, 1 - toAct)
  | .call =>
    let callAmount := getCallAmount history (stackOf stks toAct)
    (newHistory, pot + callAmount, stackSub stks toAct callAmount, toAct)
  | .check => (newHistory, pot, stks, 1 - toAct)
  | .fold => (newHistory, pot, stks, toAct)

/-- The child-building loop of Go `buildNode`: recurse per action and
insert under the action's key. -/
def buildChildren
    (rec : List Act → ℚ → ℚ × ℚ → Nat → Option TreeNode)
    (history : List Act) (pot : ℚ) (stks : ℚ × ℚ) (toAct : Nat) :
    List Act → Children → Option Children
  | [], acc => some acc
  | action :: rest, acc =>
    let (newHistory, newPot, newStacks, nextToAct) :=
      applyAction history pot stks toAct action
    match rec newHistory newPot newStacks nextToAct with
    | none => none
    | some child =>
      buildChildren rec history pot stks toAct rest
        (acc.set (ActionKey action) child)

/-- Go `Builder.buildNode`.  The Go recursion always terminates (every
betting line closes within at most three further actions), so the
`fuel` parameter is an upper bound on recursion depth that a caller
with enough fuel never exhausts; `none` is returned on fuel exhaustion
or on an `Evaluate` panic inside the showdown branch. -/
def buildNode (config : ActionConfig) :
    Nat → List Card → List Act → ℚ → ℚ × ℚ → Nat → Combo × Combo →
    Option TreeNode
  | 0, _, _, _, _, _, _ => none
  | fuel + 1, board, history, pot, stks, toAct, combos =>
    let lastAction := GetLastAction history
    if (lastAction.map (fun la => la.type)) = some .fold then
      let payoffs : ℚ × ℚ := if toAct = 0 then (pot, 0) else (0, pot)
      some (.terminal pot payoffs false (emptyCombo, emptyCombo) board stks)
    else if isShowdown history then
      match calculateShowdownPayoffs board combos pot with
      | none => none
      | some payoffs =>
        some (.terminal pot payoffs false (emptyCombo, emptyCombo) board stks)
    else
      let playerCombo := if toAct = 0 then combos.1 else combos.2
      let holeCards := [playerCombo.card1, playerCombo.card2]
      let playerPos := if toAct = 0 then "BTN" else "BB"
      let infoSet := GetInfoSet board history playerPos holeCards
      let actions := GenerateActions pot (stackOf stks toAct) lastAction config
      match buildChildren
          (fun h p s t => buildNode config fuel board h p s t combos)
          history pot stks toAct actions .nil with
      | none => none
      | some children =>
        some (.decision infoSet toAct pot actions children board stks)

/-- Input game state as the tree builder consumes it (Go
`notation.GameState`; only the fields `Build` reads are kept: the two
player stacks, pot, board, action history and the player to act). -/
structure GameStateE where
  stks : List ℚ
  pot : ℚ
  board : List Card
  history : List Act
  toAct : Nat
deriving Repr

/-- Go `Builder.validateCards`: board and hole cards pairwise distinct. -/
def validateCards (board : List Card) (combo0 combo1 : Combo) : Bool :=
  decide (board ++ [combo0.card1, combo0.card2, combo1.card1, combo1.card2]
    |>.Nodup)

/-- Go `Builder.Build`: validation, then the recursive construction.
Fuel 8 exceeds the maximal betting-line depth (at most three further
actions close a street), so it is never exhausted. -/
def Build (config : ActionConfig) (gs : GameStateE) (combo0 combo1 : Combo) :
    Option TreeNode :=
  if gs.stks.length ≠ 2 then none
  else if gs.board.length ≠ 5 ∧ gs.board.length ≠ 4 ∧ gs.board.length ≠ 3 then
    none
  else if ¬validateCards gs.board combo0 combo1 then none
  else
    buildNode config 8 gs.board gs.history gs.pot
      (gs.stks.getD 0 0, gs.stks.getD 1 0) gs.toAct (combo0, combo1)

/-! ## `pkg/equity`: equity calculation -/

/-- Go `equity.EquityResult`. -/
structure EquityResult where
  winPct : ℚ
  tiePct : ℚ
  equity : ℚ
deriving DecidableEq, Repr

/-- All 52 cards in the order of Go's
`for rank := Two; rank <= Ace; rank++ { for suit := Spades; suit <= Clubs; suit++ }`
enumeration. -/
def deckAsc : List Card :=
  (List.range 13).flatMap (fun r => (List.range 4).map (fun s => ⟨r, s⟩))

/-- Fold one opponent combo into the `(wins, ties, total)` tallies
(the body of the opponent loops in `pkg/equity`). -/
def tallyOpp (heroHand : HandValue) (fullBoard : List Card)
    (acc : ℚ × ℚ × ℚ) (oppCombo : Combo) : Option (ℚ × ℚ × ℚ) :=
  match Evaluate ([oppCombo.card1, oppCombo.card2] ++ fullBoard) with
  | none => none
  | some oppHand =>
    let cmp := heroHand.compare oppHand
    some (acc.1 + (if cmp > 0 then 1 else 0),
          acc.2.1 + (if cmp = 0 then 1 else 0),
          acc.2.2 + 1)

/-- Turn `(wins, ties, total)` into the returned `EquityResult`; the
`total == 0` case is the defined 0.5 default. -/
def equityOfTallies (t : ℚ × ℚ × ℚ) : EquityResult :=
  let (wins, ties, total) := t
  if total = 0 then ⟨0, 0, 1 / 2⟩
  else ⟨wins / total, ties / total, wins / total + ties / total / 2⟩

/-- Go `Calculator.calculateRiverEquity` (board complete). -/
def calculateRiverEquity (hero board : List Card) (oppRange : List Combo) :
    Option EquityResult :=
  match Evaluate (hero ++ board) with
  | none => none
  | some heroHand =>
    (oppRange.foldlM (tallyOpp heroHand board) (0, 0, 0)).map equityOfTallies

/-- Go `Calculator.calculateTurnEquity` (enumerate all rivers). -/
def calculateTurnEquity (hero board : List Card) (oppRange : List Combo) :
    Option EquityResult :=
  let usedCards := hero ++ board
  (deckAsc.foldlM (fun acc river =>
    if river ∈ usedCards then some acc
    else
      let fullBoard := board ++ [river]
      match Evaluate (hero ++ fullBoard) with
      | none => none
      | some heroHand =>
        oppRange.foldlM (fun acc2 oppCombo =>
          if oppCombo.card1 = river ∨ oppCombo.card2 = river then some acc2
          else tallyOpp heroHand fullBoard acc2 oppCombo) acc)
    ((0 : ℚ), (0 : ℚ), (0 : ℚ))).map equityOfTallies

/-- Go `Calculator.calculateFlopEquity` (enumerate turns and rivers). -/
def calculateFlopEquity (hero board : List Card) (oppRange : List Combo) :
    Option EquityResult :=
  let usedCards := hero ++ board
  (deckAsc.foldlM (fun acc turn =>
    if turn ∈ usedCards then some acc
    else
      let turnBoard := board ++ [turn]
      let turnUsed := hero ++ turnBoard
      deckAsc.foldlM (fun accT river =>
        if river ∈ turnUsed then some accT
        else
          let fullBoard := turnBoard ++ [river]
          match Evaluate (hero ++ fullBoard) with
          | none => none
          | some heroHand =>
            oppRange.foldlM (fun acc2 oppCombo =>
              if oppCombo.card1 = turn ∨ oppCombo.card2 = turn ∨
                  oppCombo.card1 = river ∨ oppCombo.card2 = river then some acc2
              else tallyOpp heroHand fullBoard acc2 oppCombo) accT) acc)
    ((0 : ℚ), (0 : ℚ), (0 : ℚ))).map equityOfTallies

/-- Go `Calculator.CalculateEquity`: dispatch on the board size. -/
def CalculateEquity (hero board : List Card) (oppRange : List Combo) :
    Option EquityResult :=
  if board.length = 5 then calculateRiverEquity hero board oppRange
  else if board.length = 4 then calculateTurnEquity hero board oppRange
  else calculateFlopEquity hero board oppRange

/-! ## `pkg/solver`: strategies, vanilla CFR, MCCFR -/

/-- Go `solver.Strategy`. -/
structure StrategyS where
  infoSet : String
  actions : List Act
  regretSum : List ℚ
  strategySum : List ℚ
deriving DecidableEq, Repr

/-- Go `solver.NewStrategy`: zero accumulators of the action count. -/
def NewStrategy (infoSet : String) (actions : List Act) : StrategyS :=
  ⟨infoSet, actions, List.replicate actions.length 0,
   List.replicate actions.length 0⟩

/-- Go `Strategy.GetStrategy` (regret matching): clamp the regrets at
zero; divide by their sum when positive, else the uniform
distribution.  The Go loop writes the clamped regrets into `strategy`
and accumulates `normalizingSum` as their sum. -/
def GetStrategy (s : StrategyS) : List ℚ :=
  let n := s.actions.length
  let strategy := (List.range n).map (fun i =>
    if s.regretSum.getD i 0 > 0 then s.regretSum.getD i 0 else 0)
  let normalizingSum := strategy.sum
  if normalizingSum > 0 then
    strategy.map (fun x => x / normalizingSum)
  else
    List.replicate n (1 / (n : ℚ))

/-- Go `Strategy.UpdateRegrets`: add `regrets[i]` for `i` below the
action count (entries beyond it are untouched, as in the Go loop). -/
def UpdateRegrets (s : StrategyS) (regrets : List ℚ) : StrategyS :=
  { s with regretSum := s.regretSum.mapIdx (fun i r =>
      if i < s.actions.length then r + regrets.getD i 0 else r) }

/-- Go `Strategy.UpdateStrategy`: add `reachProb * strategy[i]`. -/
def UpdateStrategy (s : StrategyS) (strategy : List ℚ) (reachProb : ℚ) :
    StrategyS :=
  { s with strategySum := s.strategySum.mapIdx (fun i v =>
      if i < s.actions.length then v + reachProb * strategy.getD i 0 else v) }

/-- Go `solver.StrategyProfile`: the map from info-set key to strategy. -/
def Profile := String → Option StrategyS

/-- The empty profile (Go `NewStrategyProfile`). -/
def emptyProfile : Profile := fun _ => none

/-- Go `StrategyProfile.GetOrCreate`. -/
def getOrCreate (p : Profile) (infoSet : String) (actions : List Act) :
    StrategyS × Profile :=
  match p infoSet with
  | some s => (s, p)
  | none =>
    let s := NewStrategy infoSet actions
    (s, fun k => if k = infoSet then some s else p k)

/-- Mutate the entry at a key (the Go code mutates the struct returned
by `GetOrCreate` through its pointer). -/
def updateAt (p : Profile) (infoSet : String) (f : StrategyS → StrategyS) :
    Profile :=
  fun k => if k = infoSet then (p k).map f else p k

/-- Project the component of a value pair belonging to `player`. -/
def pick (player : Nat) (v : ℚ × ℚ) : ℚ :=
  if player = 0 then v.1 else v.2

/-- Probability attached to a chance outcome
(`node.ChanceProbabilities[key]`; Go map access defaults to 0). -/
def probOf (probs : List (String × ℚ)) (key : String) : ℚ :=
  ((probs.find? (fun e => e.1 = key)).map (fun e => e.2)).getD 0

/-- The action loop of Go `CFR.cfr` at a decision node: per-action
child values (zero for a missing child, which Go `continue`s past),
the strategy-weighted node value, and the threaded profile. -/
def cfrKids (f : TreeNode → ℚ → ℚ → Profile → (ℚ × ℚ) × Profile)
    (σ : List ℚ) (player : Nat) (r0 r1 : ℚ) (ch : Children) :
    List Act → Nat → Profile → List (ℚ × ℚ) × (ℚ × ℚ) × Profile
  | [], _, p => ([], (0, 0), p)
  | action :: rest, i, p =>
    match ch.find? (ActionKey action) with
    | none =>
      let (qs, v, p') := cfrKids f σ player r0 r1 ch rest (i + 1) p
      ((0, 0) :: qs, v, p')
    | some child =>
      let ap := σ.getD i 0
      let (childValue, p1) :=
        if player = 0 then f child (r0 * ap) r1 p
        else f child r0 (r1 * ap) p
      let (qs, v, p2) := cfrKids f σ player r0 r1 ch rest (i + 1) p1
      (childValue :: qs,
       (ap * childValue.1 + v.1, ap * childValue.2 + v.2), p2)

/-- The chance branch of Go `CFR.cfr`: expectation over all outcomes.
(Go iterates its children map in unspecified order; the insertion
order used here is one of those orders.) -/
def cfrChance (f : TreeNode → ℚ → ℚ → Profile → (ℚ × ℚ) × Profile)
    (probs : List (String × ℚ)) (r0 r1 : ℚ) :
    Children → Profile → (ℚ × ℚ) × Profile
  | .nil, p => ((0, 0), p)
  | .cons key child rest, p =>
    let prob := probOf probs key
    let (childValue, p1) := f child (r0 * prob) (r1 * prob) p
    let (v, p2) := cfrChance f probs r0 r1 rest p1
    ((prob * childValue.1 + v.1, prob * childValue.2 + v.2), p2)

/-- Go `CFR.cfr`, fuelled: the Go recursion is structural on the tree,
so any fuel at least the tree depth gives the Go behaviour. -/
def cfr : Nat → TreeNode → ℚ → ℚ → Profile → (ℚ × ℚ) × Profile
  | 0, _, _, _, p => ((0, 0), p)
  | fuel + 1, node, r0, r1, p =>
    match node with
    | .terminal _ payoff _ _ _ _ => (payoff, p)
    | .chance _ children probs _ _ => cfrChance (cfr fuel) probs r0 r1 children p
    | .decision infoSet player _ actions children _ _ =>
      let (strategy, p1) := getOrCreate p infoSet actions
      let currentStrategy := GetStrategy strategy
      let (actionValues, nodeValue, p2) :=
        cfrKids (cfr fuel) currentStrategy player r0 r1 children actions 0 p1
      let cfValue := pick player nodeValue
      let regrets := actionValues.map (fun q => pick player q - cfValue)
      let cfReachProb := if player = 0 then r1 else r0
      let scaledRegrets := regrets.map (fun x => x * cfReachProb)
      let ownReachProb := if player = 0 then r0 else r1
      let p3 := updateAt p2 infoSet (fun s => UpdateRegrets s scaledRegrets)
      let p4 := updateAt p3 infoSet
        (fun s => UpdateStrategy s currentStrategy ownReachProb)
      (nodeValue, p4)

/-- Depth of a tree, the fuel bound for one traversal. -/
def treeDepth : TreeNode → Nat
  | .terminal .. => 1
  | .decision _ _ _ _ ch _ _ => 1 + childDepth ch
  | .chance _ ch _ _ _ => 1 + childDepth ch
where
  childDepth : Children → Nat
    | .nil => 0
    | .cons _ c rest => max (treeDepth c) (childDepth rest)

/-- Go `CFR.Iterate`: one traversal from the root with reaches (1, 1). -/
def cfrIterate (root : TreeNode) (p : Profile) : Profile :=
  (cfr (treeDepth root) root 1 1 p).2

/-- Iterations Go `CFR.Train` executes: the plain
`for i := 0; i < iterations; i++` loop body count — no clamping. -/
def cfrTrainCount (iterations : Int) : Nat :=
  iterations.toNat

/-- Go `CFR.Train`. -/
def cfrTrain (root : TreeNode) (iterations : Int) (p : Profile) : Profile :=
  (cfrIterate root)^[cfrTrainCount iterations] p

/-- Iterations Go `MCCFR.Train` executes: clamp above at the hard
`maxIterations = 100000` limit and below at 0, then loop. -/
def mccfrTrainCount (iterations : Int) : Nat :=
  let it := if iterations > 100000 then 100000 else iterations
  let it := if it < 0 then 0 else it
  it.toNat

/-- Solver state of Go `solver.MCCFR`: the profile plus the position
in the pseudo-random draw stream.  Go's `rand.Rand` is seeded once;
its successive outputs are modelled as a stream `draws : ℕ → ℚ` of
values in `[0, 1)` indexed by `k`, so that a fixed seed corresponds
to a fixed stream. -/
structure MState where
  profile : Profile
  k : Nat

/-- One `rng.Float64()` call. -/
def drawFloat (draws : Nat → ℚ) (st : MState) : ℚ × MState :=
  (draws st.k, { st with k := st.k + 1 })

/-- One `rng.Intn n` call, derived from one stream draw; the result is
in `[0, n)` for `n > 0`. -/
def drawIntn (draws : Nat → ℚ) (n : Nat) (st : MState) : Nat × MState :=
  (min (n - 1) (Int.toNat ⌊draws st.k * n⌋), { st with k := st.k + 1 })

/-- Go `MCCFR.sampleAction`: walk the cumulative distribution, return
the first index whose running sum reaches the draw, falling through to
the last index; 0 on an empty strategy. -/
def sampleAction (strategy : List ℚ) (r : ℚ) : Nat :=
  match strategy with
  | [] => 0
  | _ => go strategy r 0 0
where
  go : List ℚ → ℚ → ℚ → Nat → Nat
    | [], _, _, i => i - 1
    | prob :: rest, r, cumulative, i =>
      let c := cumulative + prob
      if r ≤ c then i else go rest r c (i + 1)

/-- Go `MCCFR.rollout`: sample the missing community card(s) uniformly
from the cards not used by the board or either combo, complete the
board, evaluate both 7-card hands and award the pot.  The `ranks`
slice in Go runs Ace down to Two with suits Spades..Clubs inside.
The guards ensure both `Evaluate` calls see exactly 7 cards, so the
`Option` default is never taken. -/
def rollout (draws : Nat → ℚ) (pot : ℚ) (payoff : ℚ × ℚ)
    (combos : Combo × Combo) (board : List Card) (st : MState) :
    (ℚ × ℚ) × MState :=
  if board.length ≠ 3 ∧ board.length ≠ 4 then (payoff, st)
  else
    let usedCards := board ++ [combos.1.card1, combos.1.card2,
                               combos.2.card1, combos.2.card2]
    let possibleCards :=
      (((List.range 13).map (fun k => 12 - k)).flatMap (fun r =>
        (List.range 4).map (fun s => (⟨r, s⟩ : Card)))).filter
        (fun c => c ∉ usedCards)
    if possibleCards.length < 2 then ((pot / 2, pot / 2), st)
    else
      let (finalBoard, st') :=
        if board.length = 3 then
          let (i, st1) := drawIntn draws possibleCards.length st
          let turnCard := possibleCards.getD i ⟨0, 0⟩
          let possibleRivers := possibleCards.filter (fun c => c ≠ turnCard)
          let (j, st2) := drawIntn draws possibleRivers.length st1
          let riverCard := possibleRivers.getD j ⟨0, 0⟩
          (board ++ [turnCard, riverCard], st2)
        else
          let (i, st1) := drawIntn draws possibleCards.length st
          let riverCard := possibleCards.getD i ⟨0, 0⟩
          (board ++ [riverCard], st1)
      let hand0 := [combos.1.card1, combos.1.card2] ++ finalBoard
      let hand1 := [combos.2.card1, combos.2.card2] ++ finalBoard
      let rank0 := (Evaluate hand0).getD ⟨0, [0, 0, 0, 0, 0]⟩
      let rank1 := (Evaluate hand1).getD ⟨0, [0, 0, 0, 0, 0]⟩
      let cmp := rank0.compare rank1
      if cmp > 0 then ((pot, 0), st')
      else if cmp < 0 then ((0, pot), st')
      else ((pot / 2, pot / 2), st')

/-- Go `MCCFR.sampleChanceNode`.  The `outcomes` slice is filled by
`for key := range node.Children`: Go map iteration order is
deliberately unspecified and varies between runs, so it is supplied
here as the oracle `ord` (any permutation of the keys is a possible
Go behaviour).  One outcome is drawn uniformly from that slice, with
the importance-sampling correction `trueProb / uniformProb`. -/
def sampleChanceNode (draws : Nat → ℚ) (ord : Children → List String)
    (f : TreeNode → ℚ → ℚ → ℚ → MState → (ℚ × ℚ) × MState)
    (children : Children) (probs : List (String × ℚ))
    (r0 r1 sampleProb : ℚ) (st : MState) : (ℚ × ℚ) × MState :=
  let outcomes := ord children
  if outcomes.length = 0 then ((0, 0), st)
  else
    let (i, st1) := drawIntn draws outcomes.length st
    let sampledKey := outcomes.getD i ""
    match children.find? sampledKey with
    | none => ((0, 0), st1)
    | some child =>
      let prob := probOf probs sampledKey
      let uniformProb := 1 / (outcomes.length : ℚ)
      let childSampleProb := sampleProb * uniformProb
      let (childValue, st2) :=
        f child (r0 * prob) (r1 * prob) childSampleProb st1
      let correction := prob / uniformProb
      ((childValue.1 * correction, childValue.2 * correction), st2)

/-- Go `MCCFR.mccfr` (outcome sampling), fuelled like `cfr`. -/
def mccfr (draws : Nat → ℚ) (ord : Children → List String) :
    Nat → TreeNode → ℚ → ℚ → ℚ → MState → (ℚ × ℚ) × MState
  | 0, _, _, _, _, st => ((0, 0), st)
  | fuel + 1, node, r0, r1, sampleProb, st =>
    match node with
    | .terminal pot payoff needsRollout combos board _ =>
      if needsRollout then rollout draws pot payoff combos board st
      else (payoff, st)
    | .chance _ children probs _ _ =>
      sampleChanceNode draws ord (mccfr draws ord fuel) children probs
        r0 r1 sampleProb st
    | .decision infoSet player _ actions children _ _ =>
      let (strategy, p1) := getOrCreate st.profile infoSet actions
      let currentStrategy := GetStrategy strategy
      let (r, st1) := drawFloat draws { st with profile := p1 }
      let actionIdx := sampleAction currentStrategy r
      let action := actions.getD actionIdx ⟨.check, 0⟩
      match children.find? (ActionKey action) with
      | none => ((0, 0), st1)
      | some child =>
        let actionProb := currentStrategy.getD actionIdx 0
        let childReach0 := if player = 0 then r0 * actionProb else r0
        let childReach1 := if player = 0 then r1 else r1 * actionProb
        let childSampleProb := sampleProb * actionProb
        let (childValue, st2) :=
          mccfr draws ord fuel child childReach0 childReach1
            childSampleProb st1
        let nodeValue := childValue
        let cfValue := pick player nodeValue
        let actionCFValue := pick player childValue
        let regrets := (List.range actions.length).map (fun i =>
          if i = actionIdx then (actionCFValue - cfValue) / sampleProb else 0)
        let cfReachProb := if player = 0 then r1 else r0
        let scaledRegrets := regrets.map (fun x => x * cfReachProb)
        let ownReachProb := if player = 0 then r0 else r1
        let p3 := updateAt st2.profile infoSet
          (fun s => UpdateRegrets s scaledRegrets)
        let p4 := updateAt p3 infoSet
          (fun s => UpdateStrategy s currentStrategy ownReachProb)
        (nodeValue, { st2 with profile := p4 })

/-- Go `MCCFR.Iterate`. -/
def mccfrIterate (draws : Nat → ℚ) (ord : Children → List String)
    (root : TreeNode) (st : MState) : MState :=
  (mccfr draws ord (treeDepth root) root 1 1 1 st).2

/-- Go `MCCFR.Train`: clamp the iteration count, then loop `Iterate`. -/
def mccfrTrain (draws : Nat → ℚ) (ord : Children → List String)
    (root : TreeNode) (iterations : Int) (st : MState) : MState :=
  (mccfrIterate draws ord root)^[mccfrTrainCount iterations] st

/-! ## Derived predicates and concrete fixtures -/

/-- Every terminal node in the tree has `payoff0 + payoff1 = pot`. -/
def terminalsSumToPot : TreeNode → Bool
  | .terminal pot payoff _ _ _ _ => decide (payoff.1 + payoff.2 = pot)
  | .decision _ _ _ _ ch _ _ => childrenOk ch
  | .chance _ ch _ _ _ => childrenOk ch
where
  childrenOk : Children → Bool
    | .nil => true
    | .cons _ c rest => terminalsSumToPot c && childrenOk rest

/-- The turn board Kh 9s 4c 7d of the repository's own
`TestMCCFR_TurnRollout` / `TestIntegration_TurnSolver` scenario. -/
def turnBoardKh9s4c7d : List Card := [⟨11, 1⟩, ⟨7, 0⟩, ⟨2, 3⟩, ⟨5, 2⟩]

/-- The river board Kh 9s 4c 7d 2s of scenario S1. -/
def riverBoardKh9s4c7d2s : List Card := [⟨11, 1⟩, ⟨7, 0⟩, ⟨2, 3⟩, ⟨5, 2⟩, ⟨0, 0⟩]

/-- Hero combo Ad Ac of the test scenarios. -/
def comboAdAc : Combo := ⟨⟨12, 2⟩, ⟨12, 3⟩⟩

/-- Villain combo Qd Qh of the test scenarios. -/
def comboQdQh : Combo := ⟨⟨10, 2⟩, ⟨10, 1⟩⟩

/-- A history of two consecutive checks — a showdown. -/
def checkCheck : List Act := [⟨.check, 0⟩, ⟨.check, 0⟩]

/-- A minimal two-outcome chance tree: the root deals one of two
decision nodes (info sets `A|` and `B|`), each with a single check
action to a split-pot terminal.  Probabilities are ½/½. -/
def chanceTreeAB : TreeNode :=
  .chance 10
    (.cons "c0"
      (.decision "A|" 0 10 [⟨.check, 0⟩]
        (.cons "x" (.terminal 10 (5, 5) false (emptyCombo, emptyCombo) [] (100, 100)) .nil)
        [] (100, 100))
      (.cons "c1"
        (.decision "B|" 0 10 [⟨.check, 0⟩]
          (.cons "x" (.terminal 10 (5, 5) false (emptyCombo, emptyCombo) [] (100, 100)) .nil)
          [] (100, 100))
        .nil))
    [("c0", 1 / 2), ("c1", 1 / 2)] [] (100, 100)

/-- Map-iteration order oracle: insertion order. -/
def ordForward : Children → List String := Children.keys

/-- Map-iteration order oracle: reversed insertion order (equally a
possible Go map iteration order). -/
def ordReverse : Children → List String := fun ch => (Children.keys ch).reverse

/-- All 26 pair terms with a suited/offsuit suffix (`AAs`, `AAo`, …,
`22s`, `22o`). -/
def pairSuffixTerms : List String :=
  (["A", "K", "Q", "J", "T", "9", "8", "7", "6", "5", "4", "3", "2"].map
    (fun r => [r ++ r ++ "s", r ++ r ++ "o"])).flatten

/-- A profile entry evolving without changing its action list or its
accumulator lengths (what one CFR traversal does to existing entries). -/
def EntryInv (s s' : StrategyS) : Prop :=
  s'.actions = s.actions ∧ s'.regretSum.length = s.regretSum.length ∧
    s'.strategySum.length = s.strategySum.length

/-- The regret-matching formula as the spec states it:
`σ[i] = max(0, regretSum[i]) / Σⱼ max(0, regretSum[j])`, the uniform
distribution over the `n` actions when the denominator is zero
(spec §4.5). -/
def regretMatchSpec (regretSum : List ℚ) (n : Nat) : List ℚ :=
  let denom := (regretSum.map (fun r => max 0 r)).sum
  if 0 < denom then regretSum.map (fun r => max 0 r / denom)
  else List.replicate n (1 / (n : ℚ))

/-! ## Theorems -/

set_option maxRecDepth 20000

unseal Rat.mul Rat.add Rat.sub Rat.inv

/-- `find?` on a strictly descending list whose entries above `h` all
fail and with `h` succeeding returns `h`. -/
theorem find?_first_on_desc {p : Nat → Bool} {h : Nat} :
    ∀ l : List Nat, l.Pairwise (· > ·) → h ∈ l → p h = true →
      (∀ g ∈ l, g > h → p g = false) → l.find? p = some h := by
  intro l
  induction l with
  | nil => simp
  | cons a t ih =>
    intro hp hm hph hfalse
    rcases List.mem_cons.mp hm with rfl | hmt
    · exact List.find?_cons_of_pos _ hph
    · have hagt : a > h := (List.pairwise_cons.mp hp).1 h hmt
      have hpa : p a = false := hfalse a (List.mem_cons_self a t) hagt
      rw [List.find?_cons_of_neg _ (by simp [hpa])]
      exact ih (List.pairwise_cons.mp hp).2 hmt hph
        (fun g hg => hfalse g (List.mem_cons_of_mem _ hg))

/-- `rankCount` is counting in the projected rank list. -/
theorem rankCount_eq_count (cs : List Card) (r : Rank) :
    rankCount cs r = (cs.map Card.rank).count r := by
  simp only [rankCount, List.count, List.countP_map]
  refine List.countP_congr (fun c _ => ?_)
  simp only [Function.comp_apply]
  rw [Bool.eq_iff_iff]
  simp

/-- C7: straight detection scans the five-card windows from A-K-Q-J-T
down to 6-5-4-3-2 and returns the greatest (first from the top)
matching high card; a five-card hand whose ranks are exactly the wheel
A-5-4-3-2 matches no window and is reported as a straight (or straight
flush) with high card Five (3), not Ace (12). -/
theorem C7_straight_first_match_and_wheel :
    (∀ (counts : Rank → Nat) (h : Rank), 4 ≤ h → h ≤ 12 →
      straightWindowAt counts h = true →
      (∀ g, h < g → g ≤ 12 → straightWindowAt counts g = false) →
      checkStraight counts = (true, h)) ∧
    (∀ cs : List Card, (cs.map Card.rank).Perm [12, 0, 1, 2, 3] →
      checkStraight (rankCount cs) = (true, 3) ∧
      (evaluate5Cards cs).values = [3, 0, 0, 0, 0] ∧
      ((evaluate5Cards cs).rank = 4 ∨ (evaluate5Cards cs).rank = 8)) := by
  constructor
  · intro counts h h4 h12 hw hmax
    have hfind : straightHighs.find? (fun g => straightWindowAt counts g)
        = some h := by
      refine find?_first_on_desc straightHighs (by decide) ?_ hw ?_
      · simp only [straightHighs]
        interval_cases h <;> decide
      · intro g hg hgt
        refine hmax g hgt ?_
        simp only [straightHighs, List.mem_cons, List.not_mem_nil, or_false] at hg
        rcases hg with rfl | rfl | rfl | rfl | rfl | rfl | rfl | rfl | rfl <;> decide
    unfold checkStraight
    rw [hfind]
  · intro cs hperm
    have hc : rankCount cs = fun r => List.count r [12, 0, 1, 2, 3] := by
      funext r
      rw [rankCount_eq_count, hperm.count_eq]
    have hev : evaluate5Cards cs = evaluate5Core (rankCount cs) (isFlushOf cs) := rfl
    rw [hev, hc]
    rcases hf : isFlushOf cs <;> exact ⟨by decide, by decide, by decide⟩

/-- Witness for C7: the 8-high window T-9-8-7-6 wins from the top, and
the concrete wheel hand As 2h 3d 4c 5s reports high card Five. -/
theorem C7_straight_witness :
    (straightWindowAt (fun r => List.count r [8, 7, 6, 5, 4]) 8 = true ∧
      checkStraight (fun r => List.count r [8, 7, 6, 5, 4]) = (true, 8)) ∧
    (checkStraight (rankCount [⟨12, 0⟩, ⟨0, 1⟩, ⟨1, 2⟩, ⟨2, 3⟩, ⟨3, 0⟩]) =
        (true, 3) ∧
      (evaluate5Cards [⟨12, 0⟩, ⟨0, 1⟩, ⟨1, 2⟩, ⟨2, 3⟩, ⟨3, 0⟩]).values =
        [3, 0, 0, 0, 0]) := by
  constructor
  · refine ⟨by decide, ?_⟩
    refine C7_straight_first_match_and_wheel.1 _ 8 (by decide) (by decide)
      (by decide) ?_
    intro g h1 h2
    interval_cases g <;> decide
  · have h := C7_straight_first_match_and_wheel.2
      [⟨12, 0⟩, ⟨0, 1⟩, ⟨1, 2⟩, ⟨2, 3⟩, ⟨3, 0⟩] (by decide)
    exact ⟨h.1, h.2.1⟩

/-- C10: 7-card evaluation succeeds exactly on 7-card inputs — on any
other length the Go code panics (modelled `none`) — and consequently
the builder's showdown payoff computation, which evaluates each
player's 2 hole cards plus the board, is defined exactly when the
board has 5 cards. -/
theorem C10_evaluate_seven_card_precondition :
    (∀ cs : List Card, (Evaluate cs).isSome ↔ cs.length = 7) ∧
    (∀ (board : List Card) (c0 c1 : Combo) (pot : ℚ),
      (calculateShowdownPayoffs board (c0, c1) pot).isSome ↔
        board.length = 5) := by
  have hEv : ∀ cs : List Card, (Evaluate cs).isSome ↔ cs.length = 7 := by
    intro cs
    unfold Evaluate
    split <;> simp_all
  refine ⟨hEv, ?_⟩
  intro board c0 c1 pot
  unfold calculateShowdownPayoffs
  dsimp only
  by_cases hb : board.length = 5
  · have h0 : ([c0.card1, c0.card2] ++ board).length = 7 := by simp [hb]
    have h1 : ([c1.card1, c1.card2] ++ board).length = 7 := by simp [hb]
    obtain ⟨v0, hv0⟩ := Option.isSome_iff_exists.mp ((hEv _).mpr h0)
    obtain ⟨v1, hv1⟩ := Option.isSome_iff_exists.mp ((hEv _).mpr h1)
    rw [hv0, hv1]
    simp only [hb, iff_true]
    split
    · rfl
    · split <;> rfl
  · have h0 : ([c0.card1, c0.card2] ++ board).length ≠ 7 := by
      simp only [List.length_append, List.length_cons, List.length_nil]
      omega
    have hv0 : Evaluate ([c0.card1, c0.card2] ++ board) = none := by
      rcases hE : Evaluate ([c0.card1, c0.card2] ++ board) with _ | v
      · rfl
      · exact absurd ((hEv _).mp (by rw [hE]; rfl)) h0
    rw [hv0]
    simp [hb]

/-- C1 (code bug): for a turn-board showdown (two checks on the 4-card
board Kh 9s 4c 7d of the repository's own turn tests), `buildNode`
takes the immediate-showdown branch and feeds two 6-card hands to
`Evaluate`, which panics (`none`); no Rollout node carrying the combos
and partial board is ever constructed, and the whole `Build` of the
turn state fails the same way. -/
theorem C1_turn_showdown_builds_no_rollout :
    (buildNode DefaultRiverConfig 8 turnBoardKh9s4c7d checkCheck 10 (100, 100)
      0 (comboAdAc, comboQdQh)).isNone = true ∧
    (Build DefaultRiverConfig ⟨[100, 100], 10, turnBoardKh9s4c7d, [], 0⟩
      comboAdAc comboQdQh).isNone = true := by
  exact ⟨by decide, by decide⟩

/-- C6 counterexample: requesting 100,001 iterations, vanilla CFR's
`Train` runs all 100,001 — above the 100,000 maximum the claim says
both solvers clamp to — while MCCFR's `Train` does clamp to 100,000. -/
theorem C6_cfr_train_no_clamp_at_100001 :
    cfrTrainCount 100001 = 100001 ∧ mccfrTrainCount 100001 = 100000 := by
  exact ⟨by decide, by decide⟩

/-- C6 (amended): `MCCFR.Train` silently clamps the requested iteration
count into [0, 100000] and runs its loop exactly that many times,
returning the profile state the capped count produced; vanilla
`CFR.Train` does not clamp — it runs exactly the requested count
(negative requests run zero iterations). -/
theorem C6_mccfr_clamps_cfr_does_not (n : Int) :
    (mccfrTrainCount n : Int) = min (max n 0) 100000 ∧
    (cfrTrainCount n : Int) = max n 0 ∧
    (∀ draws ord root st, mccfrTrain draws ord root n st =
      (mccfrIterate draws ord root)^[mccfrTrainCount n] st) ∧
    (∀ root p, cfrTrain root n p = (cfrIterate root)^[cfrTrainCount n] p) := by
  refine ⟨?_, ?_, fun _ _ _ _ => rfl, fun _ _ => rfl⟩
  · unfold mccfrTrainCount
    dsimp only
    split <;> split <;> omega
  · unfold cfrTrainCount
    omega

/-- C8 counterexample: the standalone pair-with-suffix term `AAs` is
not rejected: `ParseRange` accepts it and returns the 6 AA combos
(the suffix is silently ignored). -/
theorem C8_standalone_pair_suffix_accepted :
    ParseRange "AAs" = some (generateCombos 12 12 true) ∧
    (ParseRange "AAs").map List.length = some 6 := by
  exact ⟨by decide, by decide⟩

/-- C8 (amended): a pair term with a suited/offsuit suffix is rejected
only where it occurs as an endpoint of a dashed range
(`parseHandComponents`, hence `ParseRange` on `XXs-…`/`…-XXs`);
standalone, `parseSingleHand` accepts it and expands it to the 6 pair
combos, ignoring the suffix. -/
theorem C8_pair_suffix_rejected_only_in_ranges :
    ∀ h ∈ pairSuffixTerms,
      (parseSingleHand h).map List.length = some 6 ∧
      parseHandComponents h = none ∧
      ParseRange (h ++ "-QQ") = none ∧
      ParseRange ("QQ-" ++ h) = none := by decide

/-- Witness for C8: the amended statement applied to the concrete term
`AAs`. -/
theorem C8_pair_suffix_witness :
    "AAs" ∈ pairSuffixTerms ∧
      ((parseSingleHand "AAs").map List.length = some 6 ∧
      parseHandComponents "AAs" = none ∧
      ParseRange ("AAs" ++ "-QQ") = none ∧
      ParseRange ("QQ-" ++ "AAs") = none) :=
  ⟨by decide, C8_pair_suffix_rejected_only_in_ranges "AAs" (by decide)⟩

/-- An `Option`-valued fold whose every step returns the accumulator
unchanged succeeds with the initial accumulator. -/
theorem foldlM_option_fixed {α β : Type} (f : α → β → Option α)
    (l : List β) (h : ∀ acc x, x ∈ l → f acc x = some acc) :
    ∀ init, l.foldlM f init = some init := by
  induction l with
  | nil => intro init; rfl
  | cons b t ih =>
    intro init
    rw [List.foldlM_cons, h init b (List.mem_cons_self b t)]
    show t.foldlM f init = some init
    exact ih (fun acc x hx => h acc x (List.mem_cons_of_mem _ hx)) init

/-- A 7-card hand always evaluates. -/
theorem Evaluate_eq_some_of_seven {cs : List Card} (h : cs.length = 7) :
    ∃ hv, Evaluate cs = some hv :=
  ⟨_, by unfold Evaluate; rw [if_pos h]⟩

/-- C9: on a 3-, 4- or 5-card board, an empty opponent range leaves no
valid (runout, opponent) pair, and `CalculateEquity` returns the
defined 0.5 equity default instead of failing. -/
theorem C9_equity_empty_range_default (hero board : List Card)
    (h2 : hero.length = 2)
    (hb : board.length = 3 ∨ board.length = 4 ∨ board.length = 5) :
    CalculateEquity hero board ([] : List Combo) = some ⟨0, 0, 1 / 2⟩ := by
  have hEq : equityOfTallies ((0 : ℚ), (0 : ℚ), (0 : ℚ)) = ⟨0, 0, 1 / 2⟩ := by
    decide
  rcases hb with hb | hb | hb
  · -- flop: both runout cards enumerated, opponent loop empty
    unfold CalculateEquity
    rw [if_neg (by omega), if_neg (by omega)]
    unfold calculateFlopEquity
    dsimp only
    rw [foldlM_option_fixed _ _ ?_ ((0 : ℚ), (0 : ℚ), (0 : ℚ))]
    · rw [← hEq]
      rfl
    · intro acc turn _
      dsimp only
      by_cases hmem : turn ∈ hero ++ board
      · rw [if_pos hmem]
      · rw [if_neg hmem]
        refine foldlM_option_fixed _ _ ?_ acc
        intro accT river _
        dsimp only
        by_cases hmem2 : river ∈ hero ++ (board ++ [turn])
        · rw [if_pos hmem2]
        · rw [if_neg hmem2]
          obtain ⟨hv, hEv⟩ := @Evaluate_eq_some_of_seven
            (hero ++ (board ++ [turn] ++ [river])) (by simp [h2, hb])
          rw [hEv]
          rfl
  · -- turn: the river is enumerated, opponent loop empty
    unfold CalculateEquity
    rw [if_neg (by omega), if_pos hb]
    unfold calculateTurnEquity
    dsimp only
    rw [foldlM_option_fixed _ _ ?_ ((0 : ℚ), (0 : ℚ), (0 : ℚ))]
    · rw [← hEq]
      rfl
    · intro acc river _
      dsimp only
      by_cases hmem : river ∈ hero ++ board
      · rw [if_pos hmem]
      · rw [if_neg hmem]
        obtain ⟨hv, hEv⟩ := @Evaluate_eq_some_of_seven
          (hero ++ (board ++ [river])) (by simp [h2, hb])
        rw [hEv]
        rfl
  · -- river: board complete, opponent loop empty
    unfold CalculateEquity
    rw [if_pos hb]
    unfold calculateRiverEquity
    obtain ⟨hv, hEv⟩ := @Evaluate_eq_some_of_seven
      (hero ++ board) (by simp [h2, hb])
    rw [hEv, ← hEq]
    rfl

/-- Witness for C9: the defined default on a concrete river board with
an empty opponent range. -/
theorem C9_equity_witness :
    CalculateEquity [⟨12, 0⟩, ⟨11, 2⟩] riverBoardKh9s4c7d2s ([] : List Combo) =
      some ⟨0, 0, 1 / 2⟩ :=
  C9_equity_empty_range_default [⟨12, 0⟩, ⟨11, 2⟩] riverBoardKh9s4c7d2s
    (by decide) (by decide)

/-- Showdown payoffs, when defined, sum to the pot. -/
theorem showdown_payoffs_sum (board : List Card) (combos : Combo × Combo)
    (pot : ℚ) (pay : ℚ × ℚ)
    (h : calculateShowdownPayoffs board combos pot = some pay) :
    pay.1 + pay.2 = pot := by
  unfold calculateShowdownPayoffs at h
  dsimp only at h
  rcases hE0 : Evaluate ([combos.1.card1, combos.1.card2] ++ board)
    with _ | r0 <;> rw [hE0] at h
  · exact absurd h (by simp)
  rcases hE1 : Evaluate ([combos.2.card1, combos.2.card2] ++ board)
    with _ | r1 <;> rw [hE1] at h
  · exact absurd h (by simp)
  dsimp only at h
  split at h
  · cases h
    ring
  split at h
  · cases h
    ring
  · cases h
    ring

/-- Inserting a conserving child into a conserving `Children` map keeps
it conserving. -/
theorem childrenOk_set :
    ∀ (acc : Children) (key : String) (child : TreeNode),
      terminalsSumToPot.childrenOk acc = true →
      terminalsSumToPot child = true →
      terminalsSumToPot.childrenOk (acc.set key child) = true
  | .nil, key, child, _, hc => by
    unfold Children.set terminalsSumToPot.childrenOk
    rw [hc]
    rfl
  | .cons k v rest, key, child, hacc, hc => by
    unfold terminalsSumToPot.childrenOk at hacc
    rw [Bool.and_eq_true] at hacc
    unfold Children.set
    split
    · unfold terminalsSumToPot.childrenOk
      rw [hc, hacc.2]
      rfl
    · unfold terminalsSumToPot.childrenOk
      rw [hacc.1, childrenOk_set rest key child hacc.2 hc]
      rfl

/-- The builder's child loop preserves payoff conservation: if the
per-action recursion only produces conserving subtrees and the
accumulator is conserving, so is the resulting children map. -/
theorem buildChildren_ok
    (rec : List Act → ℚ → ℚ × ℚ → Nat → Option TreeNode)
    (hrec : ∀ h p st t c, rec h p st t = some c → terminalsSumToPot c = true)
    (history : List Act) (pot : ℚ) (stks : ℚ × ℚ) (toAct : Nat) :
    ∀ (actions : List Act) (acc ch : Children),
      terminalsSumToPot.childrenOk acc = true →
      buildChildren rec history pot stks toAct actions acc = some ch →
      terminalsSumToPot.childrenOk ch = true
  | [], acc, ch, hacc, heq => by
    unfold buildChildren at heq
    cases heq
    exact hacc
  | action :: rest, acc, ch, hacc, heq => by
    unfold buildChildren at heq
    rcases happ : applyAction history pot stks toAct action
      with ⟨nh, np, ns, nt⟩
    rw [happ] at heq
    dsimp only at heq
    rcases hrc : rec nh np ns nt with _ | child <;> rw [hrc] at heq
    · cases heq
    · exact buildChildren_ok rec hrec history pot stks toAct rest
        (acc.set (ActionKey action) child) ch
        (childrenOk_set acc (ActionKey action) child hacc
          (hrec nh np ns nt child hrc)) heq

/-- Every tree `buildNode` produces conserves payoffs at terminals. -/
theorem buildNode_ok (config : ActionConfig) :
    ∀ (fuel : Nat) (board : List Card) (history : List Act) (pot : ℚ)
      (stks : ℚ × ℚ) (toAct : Nat) (combos : Combo × Combo) (t : TreeNode),
      buildNode config fuel board history pot stks toAct combos = some t →
      terminalsSumToPot t = true := by
  intro fuel
  induction fuel with
  | zero =>
    intro board history pot stks toAct combos t h
    exact absurd h (by unfold buildNode; simp)
  | succ n ih =>
    intro board history pot stks toAct combos t h
    unfold buildNode at h
    by_cases hf : (GetLastAction history).map (fun la => la.type) =
        some ActionType.fold
    · rw [if_pos hf] at h
      cases h
      unfold terminalsSumToPot
      rw [decide_eq_true_eq]
      split <;> ring
    · rw [if_neg hf] at h
      by_cases hs : isShowdown history = true
      · rw [if_pos hs] at h
        rcases hS : calculateShowdownPayoffs board combos pot
          with _ | pay <;> rw [hS] at h
        · cases h
        · cases h
          unfold terminalsSumToPot
          rw [decide_eq_true_eq]
          exact showdown_payoffs_sum board combos pot pay hS
      · rw [if_neg hs] at h
        dsimp only at h
        rcases hB : buildChildren
            (fun h p s t => buildNode config n board h p s t combos)
            history pot stks toAct
            (GenerateActions pot (stackOf stks toAct) (GetLastAction history)
              config) .nil
          with _ | children <;> rw [hB] at h
        · cases h
        · cases h
          unfold terminalsSumToPot
          exact buildChildren_ok _
            (fun h' p' s' t' c' hc => ih board h' p' s' t' combos c' hc)
            history pot stks toAct _ .nil children rfl hB

/-- C4: for every terminal node in any tree `buildNode` or `Build`
produces — fold terminals and showdown terminals alike — the payoff
vector sums to the pot recorded at that node. -/
theorem C4_payoff_conservation :
    (∀ (config : ActionConfig) (fuel : Nat) (board : List Card)
        (history : List Act) (pot : ℚ) (stks : ℚ × ℚ) (toAct : Nat)
        (combos : Combo × Combo),
      Option.all terminalsSumToPot
        (buildNode config fuel board history pot stks toAct combos) = true) ∧
    (∀ (config : ActionConfig) (gs : GameStateE) (c0 c1 : Combo),
      Option.all terminalsSumToPot (Build config gs c0 c1) = true) := by
  have hNode : ∀ (config : ActionConfig) (fuel : Nat) (board : List Card)
      (history : List Act) (pot : ℚ) (stks : ℚ × ℚ) (toAct : Nat)
      (combos : Combo × Combo),
      Option.all terminalsSumToPot
        (buildNode config fuel board history pot stks toAct combos) = true := by
    intro config fuel board history pot stks toAct combos
    rcases hb : buildNode config fuel board history pot stks toAct combos
      with _ | t
    · rfl
    · simpa [Option.all] using
        buildNode_ok config fuel board history pot stks toAct combos t hb
  refine ⟨hNode, ?_⟩
  intro config gs c0 c1
  unfold Build
  split
  · rfl
  split
  · rfl
  split
  · rfl
  · exact hNode config 8 gs.board gs.history gs.pot
      (gs.stks.getD 0 0, gs.stks.getD 1 0) gs.toAct (c0, c1)

/-- Reading a list through `getD` over its index range is mapping. -/
theorem range_map_getD {α β : Type} (l : List α) (g : α → β) (d : α) :
    (List.range l.length).map (fun i => g (l.getD i d)) = l.map g := by
  induction l with
  | nil => rfl
  | cons a t ih =>
    rw [List.length_cons, List.range_succ_eq_map, List.map_cons, List.map_map,
      List.map_cons]
    refine congrArg₂ _ rfl ?_
    rw [← ih]
    refine List.map_congr_left (fun i _ => ?_)
    simp [Function.comp, List.getD_cons_succ]

/-- The Go positive-part clamp is `max 0`. -/
theorem clamp_eq_max (r : ℚ) : (if r > 0 then r else 0) = max 0 r := by
  rcases le_or_lt r 0 with h | h
  · rw [if_neg (not_lt.mpr h), max_eq_left h]
  · rw [if_pos h, max_eq_right h.le]

/-- Dividing each list entry divides the sum. -/
theorem sum_map_div (l : List ℚ) (d : ℚ) :
    (l.map (fun x => x / d)).sum = l.sum / d := by
  induction l with
  | nil => simp
  | cons a t ih => simp [ih, add_div]

/-- The code's `GetStrategy` computes the spec's regret-matching
formula whenever the accumulator has the action-list length. -/
theorem getStrategy_eq_regretMatchSpec (s : StrategyS)
    (hlen : s.regretSum.length = s.actions.length) :
    GetStrategy s = regretMatchSpec s.regretSum s.actions.length := by
  unfold GetStrategy regretMatchSpec
  dsimp only
  have hstrat : (List.range s.actions.length).map (fun i =>
      if s.regretSum.getD i 0 > 0 then s.regretSum.getD i 0 else 0) =
      s.regretSum.map (fun r => max 0 r) := by
    rw [← hlen, range_map_getD s.regretSum (fun r => if r > 0 then r else 0) 0]
    exact List.map_congr_left (fun r _ => clamp_eq_max r)
  rw [hstrat, List.map_map]
  rfl

/-- C2 counterexample: on a Strategy with an empty action list (the
claim quantifies over every Strategy), `GetStrategy` returns the empty
vector, whose sum is 0, not 1. -/
theorem C2_empty_strategy_sum_not_one :
    GetStrategy (NewStrategy "empty" []) = [] ∧
    (GetStrategy (NewStrategy "empty" [])).sum ≠ 1 := by
  exact ⟨by decide, by decide⟩

/-- C2 (amended): for every Strategy with a nonempty action list and a
regret accumulator of matching length, `GetStrategy` is exactly the
spec's regret-matching distribution — positive regret parts normalized
by their sum when that sum is positive, uniform otherwise; the result
is non-negative, sums to 1, and is exactly uniform whenever all
accumulated regrets are non-positive. -/
theorem C2_regret_matching_well_formed (s : StrategyS)
    (hne : s.actions ≠ [])
    (hlen : s.regretSum.length = s.actions.length) :
    GetStrategy s = regretMatchSpec s.regretSum s.actions.length ∧
    (∀ q ∈ GetStrategy s, 0 ≤ q) ∧
    (GetStrategy s).sum = 1 ∧
    ((∀ r ∈ s.regretSum, r ≤ 0) →
      GetStrategy s = List.replicate s.actions.length
        (1 / (s.actions.length : ℚ))) := by
  have heq := getStrategy_eq_regretMatchSpec s hlen
  have hn : (s.actions.length : ℚ) ≠ 0 := by
    have hpos : 0 < s.actions.length := List.length_pos.mpr hne
    exact_mod_cast Nat.pos_iff_ne_zero.mp hpos
  have huniSum : (List.replicate s.actions.length
      (1 / (s.actions.length : ℚ))).sum = 1 := by
    rw [List.sum_replicate, nsmul_eq_mul, mul_one_div, div_self hn]
  refine ⟨heq, ?_, ?_, ?_⟩
  · rw [heq]
    unfold regretMatchSpec
    dsimp only
    split
    · rename_i hT
      intro q hq
      obtain ⟨r, _, rfl⟩ := List.mem_map.mp hq
      exact div_nonneg (le_max_left 0 r) hT.le
    · intro q hq
      rw [List.eq_of_mem_replicate hq]
      positivity
  · rw [heq]
    unfold regretMatchSpec
    dsimp only
    split
    · rename_i hT
      rw [show (fun r => (0 ⊔ r) / (List.map (fun r => 0 ⊔ r) s.regretSum).sum)
          = (fun x => x / (List.map (fun r => 0 ⊔ r) s.regretSum).sum) ∘
            (fun r => 0 ⊔ r) from rfl,
        ← List.map_map, sum_map_div]
      exact div_self (ne_of_gt hT)
    · exact huniSum
  · intro hall
    rw [heq]
    unfold regretMatchSpec
    dsimp only
    rw [if_neg ?_]
    rw [List.sum_eq_zero]
    · exact lt_irrefl 0
    · intro x hx
      obtain ⟨r, hr, rfl⟩ := List.mem_map.mp hx
      exact max_eq_left (hall r hr)

/-- The per-action value list of the CFR loop has one entry per action. -/
theorem cfrKids_length (f : TreeNode → ℚ → ℚ → Profile → (ℚ × ℚ) × Profile)
    (σ : List ℚ) (pl : Nat) (r0 r1 : ℚ) (ch : Children) :
    ∀ (as : List Act) (i : Nat) (p : Profile),
      (cfrKids f σ pl r0 r1 ch as i p).1.length = as.length
  | [], _, _ => rfl
  | a :: rest, i, p => by
    unfold cfrKids
    rcases hF : ch.find? (ActionKey a) with _ | child <;> dsimp only
    · rcases hK : cfrKids f σ pl r0 r1 ch rest (i + 1) p with ⟨qs, v, p'⟩
      have hlen := cfrKids_length f σ pl r0 r1 ch rest (i + 1) p
      rw [hK] at hlen
      simpa using hlen
    · rcases hC : (if pl = 0 then f child (r0 * σ.getD i 0) r1 p
          else f child r0 (r1 * σ.getD i 0) p) with ⟨cv, p1⟩
      rcases hK : cfrKids f σ pl r0 r1 ch rest (i + 1) p1 with ⟨qs, v, p2⟩
      have hlen := cfrKids_length f σ pl r0 r1 ch rest (i + 1) p1
      rw [hK] at hlen
      simpa using hlen

/-- The CFR loop's running node value is the strategy-weighted sum of
the per-action values. -/
theorem cfrKids_value_sum
    (f : TreeNode → ℚ → ℚ → Profile → (ℚ × ℚ) × Profile)
    (σ : List ℚ) (pl : Nat) (r0 r1 : ℚ) (ch : Children) :
    ∀ (as : List Act) (i : Nat) (p : Profile),
      (cfrKids f σ pl r0 r1 ch as i p).2.1.1 =
        ∑ j ∈ Finset.range as.length, σ.getD (i + j) 0 *
          ((cfrKids f σ pl r0 r1 ch as i p).1.getD j (0, 0)).1 ∧
      (cfrKids f σ pl r0 r1 ch as i p).2.1.2 =
        ∑ j ∈ Finset.range as.length, σ.getD (i + j) 0 *
          ((cfrKids f σ pl r0 r1 ch as i p).1.getD j (0, 0)).2
  | [], i, p => by simp [cfrKids]
  | a :: rest, i, p => by
    unfold cfrKids
    rcases hF : ch.find? (ActionKey a) with _ | child <;> dsimp only
    · rcases hK : cfrKids f σ pl r0 r1 ch rest (i + 1) p with ⟨qs, v, p'⟩
      have ih := cfrKids_value_sum f σ pl r0 r1 ch rest (i + 1) p
      rw [hK] at ih
      dsimp only at ih ⊢
      have hshift : ∀ j, i + 1 + j = i + (j + 1) := fun j => by omega
      constructor
      · rw [List.length_cons, Finset.sum_range_succ', ih.1,
          Finset.sum_congr rfl (fun j _ => by rw [hshift j])]
        simp [List.getD_cons_succ, List.getD_cons_zero]
      · rw [List.length_cons, Finset.sum_range_succ', ih.2,
          Finset.sum_congr rfl (fun j _ => by rw [hshift j])]
        simp [List.getD_cons_succ, List.getD_cons_zero]
    · rcases hC : (if pl = 0 then f child (r0 * σ.getD i 0) r1 p
          else f child r0 (r1 * σ.getD i 0) p) with ⟨cv, p1⟩
      rcases hK : cfrKids f σ pl r0 r1 ch rest (i + 1) p1 with ⟨qs, v, p2⟩
      have ih := cfrKids_value_sum f σ pl r0 r1 ch rest (i + 1) p1
      rw [hK] at ih
      dsimp only at ih ⊢
      have hshift : ∀ j, i + 1 + j = i + (j + 1) := fun j => by omega
      constructor
      · rw [List.length_cons, Finset.sum_range_succ', ih.1,
          Finset.sum_congr rfl (fun j _ => by rw [hshift j])]
        simp only [List.getD_cons_succ, List.getD_cons_zero, Nat.add_zero]
        ring
      · rw [List.length_cons, Finset.sum_range_succ', ih.2,
          Finset.sum_congr rfl (fun j _ => by rw [hshift j])]
        simp only [List.getD_cons_succ, List.getD_cons_zero, Nat.add_zero]
        ring

/-- Each entry of the CFR loop's per-action value list is the value of
the recursion into that action's child, with the acting player's reach
multiplied by σ at that action (the opponent's reach unchanged),
starting from the profile produced by the earlier actions. -/
theorem cfrKids_getD_eq
    (f : TreeNode → ℚ → ℚ → Profile → (ℚ × ℚ) × Profile)
    (σ : List ℚ) (pl : Nat) (r0 r1 : ℚ) (ch : Children) :
    ∀ (as : List Act) (i0 : Nat) (p : Profile) (j : Nat) (child : TreeNode),
      j < as.length →
      ch.find? (ActionKey (as.getD j ⟨.check, 0⟩)) = some child →
      (∀ a ∈ as, (ch.find? (ActionKey a)).isSome) →
      (cfrKids f σ pl r0 r1 ch as i0 p).1.getD j (0, 0) =
        (f child (if pl = 0 then r0 * σ.getD (i0 + j) 0 else r0)
          (if pl = 0 then r1 else r1 * σ.getD (i0 + j) 0)
          (cfrKids f σ pl r0 r1 ch (as.take j) i0 p).2.2).1
  | [], _, _, j, _, hj, _, _ => absurd hj (by simp)
  | a :: rest, i0, p, 0, child, hj, hFj, hch => by
    have hFa : ch.find? (ActionKey a) = some child := by
      simpa using hFj
    unfold cfrKids
    rw [hFa]
    dsimp only
    rcases hC : (if pl = 0 then f child (r0 * σ.getD i0 0) r1 p
        else f child r0 (r1 * σ.getD i0 0) p) with ⟨cv, p1⟩
    rcases hK : cfrKids f σ pl r0 r1 ch rest (i0 + 1) p1 with ⟨qs, v, p2⟩
    dsimp only [List.getD_cons_zero]
    have : cv = (if pl = 0 then f child (r0 * σ.getD i0 0) r1 p
        else f child r0 (r1 * σ.getD i0 0) p).1 := by rw [hC]
    rw [this]
    show _ = (f child (if pl = 0 then r0 * σ.getD (i0 + 0) 0 else r0)
      (if pl = 0 then r1 else r1 * σ.getD (i0 + 0) 0)
      ((cfrKids f σ pl r0 r1 ch [] i0 p).2.2)).1
    by_cases hpl : pl = 0 <;> simp [hpl, cfrKids]
  | a :: rest, i0, p, j + 1, child, hj, hFj, hch => by
    have hFa : ∃ childA, ch.find? (ActionKey a) = some childA := by
      have := hch a (List.mem_cons_self a rest)
      exact Option.isSome_iff_exists.mp this
    obtain ⟨childA, hFa⟩ := hFa
    rw [List.take_succ_cons]
    unfold cfrKids
    rw [hFa]
    dsimp only
    rcases hC : (if pl = 0 then f childA (r0 * σ.getD i0 0) r1 p
        else f childA r0 (r1 * σ.getD i0 0) p) with ⟨cv, p1⟩
    rcases hK : cfrKids f σ pl r0 r1 ch rest (i0 + 1) p1 with ⟨qs, v, p2⟩
    dsimp only [List.getD_cons_succ]
    have ih := cfrKids_getD_eq f σ pl r0 r1 ch rest (i0 + 1) p1 j child
      (by simpa using hj) (by simpa using hFj)
      (fun x hx => hch x (List.mem_cons_of_mem _ hx))
    rw [hK] at ih
    dsimp only at ih
    rw [ih, show i0 + 1 + j = i0 + (j + 1) from by omega]

/-- `EntryInv` is reflexive. -/
theorem entryInv_refl (s : StrategyS) : EntryInv s s := ⟨rfl, rfl, rfl⟩

/-- `EntryInv` is transitive. -/
theorem entryInv_trans {s s' s'' : StrategyS}
    (h1 : EntryInv s s') (h2 : EntryInv s' s'') : EntryInv s s'' :=
  ⟨h2.1.trans h1.1, h2.2.1.trans h1.2.1, h2.2.2.trans h1.2.2⟩

/-- `UpdateRegrets` keeps the action list and accumulator lengths. -/
theorem updateRegrets_entryInv (s : StrategyS) (rs : List ℚ) :
    EntryInv s (UpdateRegrets s rs) := by
  refine ⟨rfl, ?_, rfl⟩
  simp [UpdateRegrets]

/-- `UpdateStrategy` keeps the action list and accumulator lengths. -/
theorem updateStrategy_entryInv (s : StrategyS) (σ : List ℚ) (w : ℚ) :
    EntryInv s (UpdateStrategy s σ w) := by
  refine ⟨rfl, rfl, ?_⟩
  simp [UpdateStrategy]

/-- `GetOrCreate` never disturbs an existing entry. -/
theorem getOrCreate_preserves (p : Profile) (infoSet : String)
    (acts : List Act) (key : String) (s : StrategyS)
    (hs : p key = some s) : (getOrCreate p infoSet acts).2 key = some s := by
  unfold getOrCreate
  rcases h : p infoSet with _ | s0 <;> dsimp only
  · by_cases hk : key = infoSet
    · subst hk
      rw [hs] at h
      cases h
    · rw [if_neg hk]
      exact hs
  · exact hs

/-- `updateAt` with a shape-preserving edit preserves every entry up
to `EntryInv`, and leaves other keys untouched. -/
theorem updateAt_preserves (p : Profile) (infoSet : String)
    (f : StrategyS → StrategyS) (key : String) (s : StrategyS)
    (hf : ∀ t, EntryInv t (f t)) (hs : p key = some s) :
    ∃ s', updateAt p infoSet f key = some s' ∧ EntryInv s s' := by
  unfold updateAt
  by_cases hk : key = infoSet
  · rw [if_pos hk, hs]
    exact ⟨f s, rfl, hf s⟩
  · rw [if_neg hk]
    exact ⟨s, hs, entryInv_refl s⟩

/-- The CFR action loop preserves existing profile entries up to
`EntryInv`, provided the child evaluator does. -/
theorem cfrKids_preserves
    (f : TreeNode → ℚ → ℚ → Profile → (ℚ × ℚ) × Profile)
    (Hf : ∀ node a b q key s, q key = some s →
      ∃ s', (f node a b q).2 key = some s' ∧ EntryInv s s')
    (σ : List ℚ) (pl : Nat) (r0 r1 : ℚ) (ch : Children) :
    ∀ (as : List Act) (i : Nat) (p : Profile) (key : String) (s : StrategyS),
      p key = some s →
      ∃ s', (cfrKids f σ pl r0 r1 ch as i p).2.2 key = some s' ∧ EntryInv s s'
  | [], _, p, key, s, hs => ⟨s, hs, entryInv_refl s⟩
  | a :: rest, i, p, key, s, hs => by
    unfold cfrKids
    rcases hF : ch.find? (ActionKey a) with _ | child <;> dsimp only
    · rcases hK : cfrKids f σ pl r0 r1 ch rest (i + 1) p with ⟨qs, v, p'⟩
      have h := cfrKids_preserves f Hf σ pl r0 r1 ch rest (i + 1) p key s hs
      rw [hK] at h
      exact h
    · rcases hC : (if pl = 0 then f child (r0 * σ.getD i 0) r1 p
          else f child r0 (r1 * σ.getD i 0) p) with ⟨cv, p1⟩
      have h1 : ∃ s1, p1 key = some s1 ∧ EntryInv s s1 := by
        by_cases hpl : pl = 0
        · rw [if_pos hpl] at hC
          obtain ⟨s1, hp1, inv1⟩ := Hf child (r0 * σ.getD i 0) r1 p key s hs
          rw [hC] at hp1
          exact ⟨s1, hp1, inv1⟩
        · rw [if_neg hpl] at hC
          obtain ⟨s1, hp1, inv1⟩ := Hf child r0 (r1 * σ.getD i 0) p key s hs
          rw [hC] at hp1
          exact ⟨s1, hp1, inv1⟩
      obtain ⟨s1, hp1, inv1⟩ := h1
      rcases hK : cfrKids f σ pl r0 r1 ch rest (i + 1) p1 with ⟨qs, v, p2⟩
      have h2 := cfrKids_preserves f Hf σ pl r0 r1 ch rest (i + 1) p1 key s1 hp1
      rw [hK] at h2
      obtain ⟨s2, hp2, inv2⟩ := h2
      exact ⟨s2, hp2, entryInv_trans inv1 inv2⟩

/-- The CFR chance loop preserves existing profile entries up to
`EntryInv`, provided the child evaluator does. -/
theorem cfrChance_preserves
    (f : TreeNode → ℚ → ℚ → Profile → (ℚ × ℚ) × Profile)
    (Hf : ∀ node a b q key s, q key = some s →
      ∃ s', (f node a b q).2 key = some s' ∧ EntryInv s s')
    (probs : List (String × ℚ)) (r0 r1 : ℚ) :
    ∀ (ch : Children) (p : Profile) (key : String) (s : StrategyS),
      p key = some s →
      ∃ s', (cfrChance f probs r0 r1 ch p).2 key = some s' ∧ EntryInv s s'
  | .nil, p, key, s, hs => ⟨s, hs, entryInv_refl s⟩
  | .cons k child rest, p, key, s, hs => by
    unfold cfrChance
    dsimp only
    rcases hC : f child (r0 * probOf probs k) (r1 * probOf probs k) p
      with ⟨cv, p1⟩
    have h1 : ∃ s1, p1 key = some s1 ∧ EntryInv s s1 := by
      obtain ⟨s1, hp1, inv1⟩ :=
        Hf child (r0 * probOf probs k) (r1 * probOf probs k) p key s hs
      rw [hC] at hp1
      exact ⟨s1, hp1, inv1⟩
    obtain ⟨s1, hp1, inv1⟩ := h1
    rcases hR : cfrChance f probs r0 r1 rest p1 with ⟨v, p2⟩
    have h2 := cfrChance_preserves f Hf probs r0 r1 rest p1 key s1 hp1
    rw [hR] at h2
    obtain ⟨s2, hp2, inv2⟩ := h2
    exact ⟨s2, hp2, entryInv_trans inv1 inv2⟩

/-- One CFR traversal preserves every existing profile entry up to
`EntryInv` (same actions, same accumulator lengths). -/
theorem cfr_preserves :
    ∀ (fuel : Nat) (node : TreeNode) (r0 r1 : ℚ) (p : Profile)
      (key : String) (s : StrategyS),
      p key = some s →
      ∃ s', (cfr fuel node r0 r1 p).2 key = some s' ∧ EntryInv s s' := by
  intro fuel
  induction fuel with
  | zero =>
    intro node r0 r1 p key s hs
    exact ⟨s, hs, entryInv_refl s⟩
  | succ n ih =>
    intro node r0 r1 p key s hs
    cases node with
    | terminal pot payoff nr combos board stks =>
      exact ⟨s, hs, entryInv_refl s⟩
    | chance pot children probs board stks =>
      unfold cfr
      exact cfrChance_preserves (cfr n)
        (fun node a b q key' s' h' => ih node a b q key' s' h')
        probs r0 r1 children p key s hs
    | decision infoSet player pot actions children board stks =>
      unfold cfr
      dsimp only
      rcases hG : getOrCreate p infoSet actions with ⟨st0, p1⟩
      have hs1 : p1 key = some s := by
        have h := getOrCreate_preserves p infoSet actions key s hs
        rw [hG] at h
        exact h
      dsimp only
      rcases hK : cfrKids (cfr n) (GetStrategy st0) player r0 r1 children
        actions 0 p1 with ⟨qs, v, p2⟩
      dsimp only
      have h2 := cfrKids_preserves (cfr n)
        (fun node a b q key' s' h' => ih node a b q key' s' h')
        (GetStrategy st0) player r0 r1 children actions 0 p1 key s hs1
      rw [hK] at h2
      obtain ⟨s2, hp2, inv2⟩ := h2
      obtain ⟨s3, hp3, inv3⟩ := updateAt_preserves p2 infoSet _ key s2
        (fun t => updateRegrets_entryInv t _) hp2
      obtain ⟨s4, hp4, inv4⟩ := updateAt_preserves _ infoSet _ key s3
        (fun t => updateStrategy_entryInv t _ _) hp3
      exact ⟨s4, hp4, entryInv_trans inv2 (entryInv_trans inv3 inv4)⟩

/-- `GetStrategy` has one probability per action. -/
theorem getStrategy_length (s : StrategyS) :
    (GetStrategy s).length = s.actions.length := by
  unfold GetStrategy
  dsimp only
  split <;> simp

/-- The Go `for i < n`-guarded indexed update of an accumulator is a
`zipWith` against the driving list. -/
theorem mapIdx_if_eq_zipWith {β : Type} (l : List ℚ) (w : List β) (d : β)
    (F : ℚ → β → ℚ) (g : Nat → ℚ → ℚ) (n : Nat)
    (hl : l.length = n) (hw : w.length = n)
    (hg : ∀ i r, i < n → g i r = F r (w.getD i d)) :
    l.mapIdx (fun i r => if i < n then g i r else r) = List.zipWith F l w := by
  refine List.ext_getElem (by simp [hl, hw]) ?_
  intro i h1 h2
  have hi : i < n := by
    simp only [List.length_mapIdx, hl] at h1
    exact h1
  rw [List.getElem_mapIdx, List.getElem_zipWith, if_pos hi, hg _ _ hi,
    List.getD_eq_getElem w d (by omega)]

/-- `getD` through `map` below the length. -/
theorem getD_map_lt {α β : Type} (h : α → β) (l : List α) (dα : α) (dβ : β)
    (i : Nat) (hi : i < l.length) :
    (l.map h).getD i dβ = h (l.getD i dα) := by
  rw [List.getD_eq_getElem _ dβ (by simpa using hi),
    List.getD_eq_getElem _ dα hi, List.getElem_map]

/-- C3: one vanilla CFR traversal at a decision node for player `pl`
computes the regret-matching strategy σ of that info set, recurses into
each legal action's child with the acting player's reach multiplied by
σ[a] (the opponent's reach unchanged) and the profile threaded in
action order, forms the per-action value vectors Q[a] and node value
V = Σ_a σ[a]·Q[a], adds `oppReach · (Q[a][pl] − V[pl])` to
`RegretSum[a]` and `ownReach · σ[a]` to `StrategySum[a]` at that info
set — leaving every other info set exactly as the child traversals
left it — and returns V. -/
theorem C3_cfr_decision_node_update
    (fuel : Nat) (infoSet : String) (pl : Nat) (pot : ℚ)
    (actions : List Act) (children : Children) (board : List Card)
    (stks : ℚ × ℚ) (r0 r1 : ℚ) (p : Profile)
    (st0 : StrategyS) (p1 : Profile) (Q : List (ℚ × ℚ)) (V : ℚ × ℚ)
    (p2 : Profile)
    (hch : ∀ a ∈ actions, (children.find? (ActionKey a)).isSome)
    (hwf : ∀ key s', p key = some s' →
      s'.regretSum.length = s'.actions.length ∧
      s'.strategySum.length = s'.actions.length)
    (hcompat : ∀ s', p infoSet = some s' → s'.actions = actions)
    (hG : getOrCreate p infoSet actions = (st0, p1))
    (hrun : cfrKids (cfr fuel) (GetStrategy st0) pl r0 r1 children actions 0 p1
      = (Q, V, p2)) :
    (cfr (fuel + 1) (.decision infoSet pl pot actions children board stks)
        r0 r1 p).1 = V ∧
    GetStrategy st0 = regretMatchSpec st0.regretSum actions.length ∧
    V.1 = ∑ j ∈ Finset.range actions.length,
      (GetStrategy st0).getD j 0 * (Q.getD j (0, 0)).1 ∧
    V.2 = ∑ j ∈ Finset.range actions.length,
      (GetStrategy st0).getD j 0 * (Q.getD j (0, 0)).2 ∧
    (∀ j child, j < actions.length →
      children.find? (ActionKey (actions.getD j ⟨.check, 0⟩)) = some child →
      Q.getD j (0, 0) =
        (cfr fuel child
          (if pl = 0 then r0 * (GetStrategy st0).getD j 0 else r0)
          (if pl = 0 then r1 else r1 * (GetStrategy st0).getD j 0)
          (cfrKids (cfr fuel) (GetStrategy st0) pl r0 r1 children
            (actions.take j) 0 p1).2.2).1) ∧
    (∃ s2, p2 infoSet = some s2 ∧ s2.actions = actions ∧
      (cfr (fuel + 1) (.decision infoSet pl pot actions children board stks)
          r0 r1 p).2 infoSet = some
        { s2 with
          regretSum := List.zipWith (fun old q => old +
              (if pl = 0 then r1 else r0) * (pick pl q - pick pl V))
            s2.regretSum Q,
          strategySum := List.zipWith (fun old x => old +
              (if pl = 0 then r0 else r1) * x)
            s2.strategySum (GetStrategy st0) }) ∧
    (∀ key, key ≠ infoSet →
      (cfr (fuel + 1) (.decision infoSet pl pot actions children board stks)
          r0 r1 p).2 key = p2 key) := by
  -- facts about the fetched strategy
  have hst0 : p1 infoSet = some st0 ∧ st0.actions = actions ∧
      st0.regretSum.length = actions.length ∧
      st0.strategySum.length = actions.length := by
    unfold getOrCreate at hG
    rcases hp : p infoSet with _ | s0 <;> rw [hp] at hG <;> dsimp only at hG
    · cases hG
      refine ⟨by simp, rfl, by simp [NewStrategy], by simp [NewStrategy]⟩
    · cases hG
      have hac := hcompat st0 hp
      have hlen := hwf infoSet st0 hp
      exact ⟨hp, hac, hac ▸ hlen.1, hac ▸ hlen.2⟩
  obtain ⟨hp1is, hact, hrlen, hslen⟩ := hst0
  have hQlen : Q.length = actions.length := by
    have h := cfrKids_length (cfr fuel) (GetStrategy st0) pl r0 r1 children
      actions 0 p1
    rw [hrun] at h
    exact h
  have hσlen : (GetStrategy st0).length = actions.length := by
    rw [getStrategy_length, hact]
  -- the traversal, reduced to its components
  have hcfr : cfr (fuel + 1)
      (.decision infoSet pl pot actions children board stks) r0 r1 p =
      (V, updateAt (updateAt p2 infoSet (fun s => UpdateRegrets s
          ((Q.map (fun q => pick pl q - pick pl V)).map
            (fun x => x * (if pl = 0 then r1 else r0)))))
        infoSet (fun s => UpdateStrategy s (GetStrategy st0)
          (if pl = 0 then r0 else r1))) := by
    unfold cfr
    dsimp only
    rw [hG]
    dsimp only
    rw [hrun]
  refine ⟨by rw [hcfr], ?_, ?_, ?_, ?_, ?_, ?_⟩
  · rw [← hact]
    exact getStrategy_eq_regretMatchSpec st0 (by rw [hrlen, hact])
  · have h := (cfrKids_value_sum (cfr fuel) (GetStrategy st0) pl r0 r1 children
      actions 0 p1).1
    rw [hrun] at h
    dsimp only at h
    rw [h]
    exact Finset.sum_congr rfl (fun j _ => by rw [Nat.zero_add])
  · have h := (cfrKids_value_sum (cfr fuel) (GetStrategy st0) pl r0 r1 children
      actions 0 p1).2
    rw [hrun] at h
    dsimp only at h
    rw [h]
    exact Finset.sum_congr rfl (fun j _ => by rw [Nat.zero_add])
  · intro j child hj hF
    have h := cfrKids_getD_eq (cfr fuel) (GetStrategy st0) pl r0 r1 children
      actions 0 p1 j child hj hF hch
    rw [hrun] at h
    dsimp only at h
    rw [h, Nat.zero_add]
  · -- accumulator updates at this info set
    obtain ⟨s2, hp2, inv2⟩ := by
      have h := cfrKids_preserves (cfr fuel)
        (fun node a b q key s h' => cfr_preserves fuel node a b q key s h')
        (GetStrategy st0) pl r0 r1 children actions 0 p1 infoSet st0 hp1is
      rw [hrun] at h
      exact h
    replace hp2 : p2 infoSet = some s2 := hp2
    have hs2act : s2.actions = actions := inv2.1.trans hact
    have hs2r : s2.regretSum.length = actions.length := inv2.2.1.trans hrlen
    have hs2s : s2.strategySum.length = actions.length := inv2.2.2.trans hslen
    refine ⟨s2, hp2, hs2act, ?_⟩
    rw [hcfr]
    dsimp only
    unfold updateAt
    rw [if_pos rfl, if_pos rfl, hp2]
    dsimp only [Option.map]
    congr 1
    -- the two mapIdx updates are the two zipWith formulas
    have hreg : UpdateRegrets s2
        ((Q.map (fun q => pick pl q - pick pl V)).map
          (fun x => x * (if pl = 0 then r1 else r0))) =
        { s2 with
          regretSum := List.zipWith
            (fun old q => old +
              (if pl = 0 then r1 else r0) * (pick pl q - pick pl V))
            s2.regretSum Q } := by
      unfold UpdateRegrets
      congr 1
      rw [hs2act, List.map_map]
      exact mapIdx_if_eq_zipWith s2.regretSum Q (0, 0)
        (fun old q => old + (if pl = 0 then r1 else r0) * (pick pl q - pick pl V))
        (fun i r => r + (Q.map ((fun x => x * (if pl = 0 then r1 else r0)) ∘
          (fun q => pick pl q - pick pl V))).getD i 0)
        actions.length hs2r hQlen
        (fun i r hi => by
          dsimp only
          rw [getD_map_lt _ Q (0, 0) 0 i (by omega)]
          dsimp only [Function.comp]
          ring)
    rw [hreg]
    unfold UpdateStrategy
    dsimp only
    congr 1
    rw [hs2act]
    exact mapIdx_if_eq_zipWith s2.strategySum (GetStrategy st0) 0
      (fun old x => old + (if pl = 0 then r0 else r1) * x)
      (fun i v => v + (if pl = 0 then r0 else r1) * (GetStrategy st0).getD i 0)
      actions.length hs2s hσlen (fun i r hi => rfl)
  · intro key hkey
    rw [hcfr]
    dsimp only
    unfold updateAt
    rw [if_neg hkey, if_neg hkey]

/-- Witness for C3: a fresh one-action decision node (info set `A|`,
check into a split-pot terminal worth (5, 5)) over the empty profile
satisfies every hypothesis of the update theorem, and the traversal
returns the node value (5, 5). -/
theorem C3_cfr_decision_node_update_witness :
    (cfr 2 (.decision "A|" 0 10 [⟨.check, 0⟩]
        (.cons "x" (.terminal 10 (5, 5) false (emptyCombo, emptyCombo) []
          (100, 100)) .nil)
        [] (100, 100)) 1 1 emptyProfile).1 = (5, 5) :=
  (C3_cfr_decision_node_update 1 "A|" 0 10 [⟨.check, 0⟩]
    (.cons "x" (.terminal 10 (5, 5) false (emptyCombo, emptyCombo) []
      (100, 100)) .nil)
    [] (100, 100) 1 1 emptyProfile
    (getOrCreate emptyProfile "A|" [⟨.check, 0⟩]).1
    (getOrCreate emptyProfile "A|" [⟨.check, 0⟩]).2
    [(5, 5)] (5, 5)
    (cfrKids (cfr 1)
      (GetStrategy (getOrCreate emptyProfile "A|" [⟨.check, 0⟩]).1) 0 1 1
      (.cons "x" (.terminal 10 (5, 5) false (emptyCombo, emptyCombo) []
        (100, 100)) .nil)
      [⟨.check, 0⟩] 0 (getOrCreate emptyProfile "A|" [⟨.check, 0⟩]).2).2.2
    (by decide)
    (fun _ s' h => Option.noConfusion h)
    (fun s' h => Option.noConfusion h)
    rfl
    (by rfl)).1

/-- Witness for C2: the amended statement at the concrete strategy with
regrets [5, -2]: hypotheses hold and the strategy sums to 1. -/
theorem C2_regret_matching_witness :
    ((⟨"w", [⟨.check, 0⟩, ⟨.bet, 5⟩], [5, -2], [0, 0]⟩ : StrategyS).actions ≠ []
      ∧ (⟨"w", [⟨.check, 0⟩, ⟨.bet, 5⟩], [5, -2], [0, 0]⟩ : StrategyS).regretSum.length
        = (⟨"w", [⟨.check, 0⟩, ⟨.bet, 5⟩], [5, -2], [0, 0]⟩ : StrategyS).actions.length) ∧
    (GetStrategy ⟨"w", [⟨.check, 0⟩, ⟨.bet, 5⟩], [5, -2], [0, 0]⟩).sum = 1 :=
  ⟨⟨by decide, by decide⟩,
   (C2_regret_matching_well_formed
     ⟨"w", [⟨.check, 0⟩, ⟨.bet, 5⟩], [5, -2], [0, 0]⟩
     (by decide) (by decide)).2.2.1⟩

/-- C5 (code bug): MCCFR's chance-node sampling enumerates the
children of a chance node by Go map iteration, whose order is
unspecified and varies between runs.  With the same draw stream (same
seed) and the same single iteration on the same tree, the forward and
the reversed iteration orders — both permutations of the same children
map — produce different profiles: one run creates and updates info set
`A|`, the other does not visit it at all. -/
theorem C5_mccfr_depends_on_map_order :
    (∀ ch : Children, (ordReverse ch).Perm (ordForward ch)) ∧
    ((mccfrTrain (fun _ => 0) ordForward chanceTreeAB 1
        ⟨emptyProfile, 0⟩).profile "A|").map (fun s => s.strategySum) =
      some [1 / 2] ∧
    (mccfrTrain (fun _ => 0) ordReverse chanceTreeAB 1
        ⟨emptyProfile, 0⟩).profile "A|" = none := by
  exact ⟨fun ch => List.reverse_perm _, by decide, by decide⟩

end PokerSolver
